import Mathlib

/-
  Verification of the Sudoku constraint-solving and puzzle-generation engine
  of the newsprint-sudoku repository (src/core/SudokuGenerator.ts,
  src/core/SudokuSolver.ts, src/core/utils.ts, src/core/techniques/*).

  The engine is shallowly embedded: the TypeScript number[][] grids become
  functions from positions to Nat (0 = empty), the SudokuCell[][] grids become
  functions from positions to a Cell structure, and the in-place mutations of
  the source become explicit state passing.  Grids are meaningful on the 81
  in-range positions (allPos); definitions are total functions on all of
  Nat x Nat, mirroring the source's 9x9 arrays on the in-range part.
-/

set_option maxRecDepth 10000

namespace Sudoku

/-- A grid position: (row, column), both 0-based as in the source. -/
abbrev Pos := Nat × Nat

/-- Plain numeric 9x9 grid (the source's number[][]); 0 means empty. -/
abbrev NumGrid := Pos → Nat

/-- Embedding of the SudokuCell interface of src/core/types.ts. -/
structure Cell where
  value : Option Nat
  notes : List Nat
  isGiven : Bool
  solutionValue : Nat
deriving DecidableEq, Repr

/-- The SudokuCell[][] grid of the source. -/
abbrev CellGrid := Pos → Cell

/-- All 81 in-range positions in row-major order, as scanned by the source's
nested for-loops. -/
def allPos : List Pos := (List.range 9).flatMap fun r => (List.range 9).map fun c => (r, c)

/-- The list [1, ..., 9] of digits, the candidate universe of the source. -/
def digits19 : List Nat := [1, 2, 3, 4, 5, 6, 7, 8, 9]

/-- Functional update of a numeric grid at one position (the source's
`grid[row][col] = num`). -/
def update (g : NumGrid) (p : Pos) (d : Nat) : NumGrid := fun q => if q = p then d else g q

/-- Embedding of isSafeInGrid of src/core/utils.ts: true when `num` occurs
neither in `row`, nor in `col`, nor in the containing 3x3 box. -/
def isSafeInGrid (g : NumGrid) (row col num : Nat) : Bool :=
  ((List.range 9).all fun x => !(g (row, x) == num || g (x, col) == num)) &&
  ((List.range 3).all fun i => (List.range 3).all fun j =>
    !(g (row - row % 3 + i, col - col % 3 + j) == num))

/-- The in-range empty positions of a numeric grid, in row-major order. -/
def empties (g : NumGrid) : List Pos := allPos.filter fun p => g p == 0

/-- The first empty cell in row-major order (the source's scan in
solveBacktrack and in SudokuGenerator.solve). -/
def firstEmpty (g : NumGrid) : Option Pos := allPos.find? fun p => g p == 0

/-- Two positions lie in a common unit (row, column or 3x3 box). -/
def sameUnit (p q : Pos) : Bool :=
  p.1 == q.1 || p.2 == q.2 || (p.1 / 3 == q.1 / 3 && p.2 / 3 == q.2 / 3)

/-- A full valid Sudoku grid: every in-range cell holds a digit 1-9 and no two
distinct cells of a common unit hold the same digit.  This is the
specification-side notion of a valid completed grid; it is not derived from
the search code. -/
def isValidFull (g : NumGrid) : Bool :=
  (allPos.all fun p => decide (1 ≤ g p) && decide (g p ≤ 9)) &&
  (allPos.all fun p => allPos.all fun q =>
    (!sameUnit p q) || p == q || !(g p == g q))

/-- The filled cells of a (possibly partial) grid are mutually consistent:
each filled cell holds a digit 1-9 and conflicts with no other filled cell of
a common unit. -/
def Consistent (g : NumGrid) : Bool :=
  allPos.all fun p =>
    (g p == 0) ||
    (decide (1 ≤ g p) && decide (g p ≤ 9) &&
      (allPos.all fun q => (q == p) || (g q == 0) || (!sameUnit p q) || !(g p == g q)))

/-- All assignments of digits 1-9 to k slots, ordered with the first slot
outermost.  Used only to count completions. -/
def assignments : Nat → List (List Nat)
  | 0 => [[]]
  | k + 1 => digits19.flatMap fun d => (assignments k).map fun vs => d :: vs

/-- Fill the listed positions with the listed values, in order. -/
def fillZip (g : NumGrid) : List Pos → List Nat → NumGrid
  | p :: ps, v :: vs => fillZip (update g p v) ps vs
  | _, _ => g

/-- The number of valid full completions of a partial grid: the number of ways
to assign digits 1-9 to its empty cells so that the resulting full grid is a
valid Sudoku grid.  This is the specification-side solution count. -/
def Nsol (g : NumGrid) : Nat :=
  ((assignments (empties g).length).filter fun vs =>
    isValidFull (fillZip g (empties g) vs)).length

theorem allPos_nodup : allPos.Nodup := by decide

theorem mem_allPos {p : Pos} : p ∈ allPos ↔ p.1 < 9 ∧ p.2 < 9 := by
  cases p with
  | mk a b =>
    simp only [allPos, List.mem_flatMap, List.mem_map, List.mem_range]
    constructor
    · rintro ⟨r, hr, c, hc, hco⟩
      cases hco
      exact ⟨hr, hc⟩
    · rintro ⟨h1, h2⟩
      exact ⟨a, h1, b, h2, rfl⟩

theorem find?_eq_head_filter {α : Type} (f : α → Bool) (l : List α) :
    l.find? f = (l.filter f).head? := by
  induction l with
  | nil => rfl
  | cons a t ih =>
    cases h : f a
    · rw [List.find?_cons_of_neg _ (by simp [h]), List.filter_cons_of_neg (by simp [h]), ih]
    · rw [List.find?_cons_of_pos _ h, List.filter_cons_of_pos h, List.head?_cons]

theorem filter_congr_erase {α : Type} [BEq α] [LawfulBEq α] {f f' : α → Bool} {p : α} :
    ∀ {l : List α}, l.Nodup → (∀ q ∈ l, q ≠ p → f' q = f q) →
      f p = true → f' p = false → l.filter f' = (l.filter f).erase p := by
  intro l
  induction l with
  | nil => intro _ _ _ _; rfl
  | cons a t ih =>
    intro hnd hoff hfp hfp'
    rcases List.nodup_cons.mp hnd with ⟨hat, hnd'⟩
    by_cases hap : a = p
    · subst hap
      have heq : t.filter f' = t.filter f := by
        apply List.filter_congr
        intro q hq
        exact hoff q (List.mem_cons_of_mem a hq) (fun h => hat (h ▸ hq))
      rw [List.filter_cons_of_neg (by simp [hfp']), List.filter_cons_of_pos (by rw [hfp]),
        List.erase_cons_head, heq]
    · have hfa : f' a = f a := hoff a (List.mem_cons_self a t) hap
      have ih' := ih hnd' (fun q hq hqp => hoff q (List.mem_cons_of_mem a hq) hqp) hfp hfp'
      have hbne : ¬(a == p) := by simp [hap]
      cases h : f a
      · rw [List.filter_cons_of_neg (by simp [hfa, h]), List.filter_cons_of_neg (by simp [h]), ih']
      · rw [List.filter_cons_of_pos (by rw [hfa, h]), List.filter_cons_of_pos (by rw [h]),
          List.erase_cons_tail hbne, ih']

theorem filter_length_le_one_change {α : Type} {f f' : α → Bool} {p : α} :
    ∀ {l : List α}, l.Nodup → (∀ q ∈ l, q ≠ p → f' q = f q) →
      (l.filter f').length ≤ (l.filter f).length + 1 := by
  intro l
  induction l with
  | nil => intro _ _; simp
  | cons a t ih =>
    intro hnd hoff
    rcases List.nodup_cons.mp hnd with ⟨hat, hnd'⟩
    have ih' := ih hnd' (fun q hq hqp => hoff q (List.mem_cons_of_mem a hq) hqp)
    by_cases hap : a = p
    · subst hap
      have heq : t.filter f' = t.filter f := by
        apply List.filter_congr
        intro q hq
        exact hoff q (List.mem_cons_of_mem a hq) (fun h => hat (h ▸ hq))
      cases hh : f a
      · cases hh' : f' a
        · rw [List.filter_cons_of_neg (by simp [hh']), List.filter_cons_of_neg (by simp [hh]), heq]
          omega
        · rw [List.filter_cons_of_pos (by rw [hh']), List.filter_cons_of_neg (by simp [hh]), heq]
          simp
      · cases hh' : f' a
        · rw [List.filter_cons_of_neg (by simp [hh']), List.filter_cons_of_pos (by rw [hh]), heq]
          simp
          omega
        · rw [List.filter_cons_of_pos (by rw [hh']), List.filter_cons_of_pos (by rw [hh]), heq]
          simp
    · have hfa : f' a = f a := hoff a (List.mem_cons_self a t) hap
      cases h : f a
      · rw [List.filter_cons_of_neg (by simp [hfa, h]), List.filter_cons_of_neg (by simp [h])]
        exact ih'
      · rw [List.filter_cons_of_pos (by rw [hfa, h]), List.filter_cons_of_pos (by rw [h])]
        simpa using ih'

theorem empties_update_eq_erase {g : NumGrid} {p : Pos} {d : Nat}
    (hmem : p ∈ allPos) (hp : g p = 0) (hd : d ≠ 0) :
    empties (update g p d) = (empties g).erase p := by
  apply filter_congr_erase allPos_nodup
  · intro q _ hqp
    simp [update, hqp]
  · simp [hp]
  · simp [update, hd]

theorem mem_empties {g : NumGrid} {p : Pos} (hmem : p ∈ allPos) (hp : g p = 0) :
    p ∈ empties g := by
  simp [empties, List.mem_filter, hmem, hp]

theorem length_empties_update_lt {g : NumGrid} {p : Pos} {d : Nat}
    (hmem : p ∈ allPos) (hp : g p = 0) (hd : d ≠ 0) :
    (empties (update g p d)).length < (empties g).length := by
  rw [empties_update_eq_erase hmem hp hd]
  have h1 := List.length_erase_of_mem (mem_empties hmem hp)
  have h2 := List.length_pos_of_mem (mem_empties hmem hp)
  omega

theorem length_empties_update_zero_le (g : NumGrid) (p : Pos) :
    (empties (update g p 0)).length ≤ (empties g).length + 1 := by
  apply filter_length_le_one_change (p := p) allPos_nodup
  intro q _ hqp
  simp [update, hqp]

theorem firstEmpty_mem {g : NumGrid} {p : Pos} (h : firstEmpty g = some p) :
    p ∈ allPos := List.mem_of_find?_eq_some h

theorem firstEmpty_empty {g : NumGrid} {p : Pos} (h : firstEmpty g = some p) :
    g p = 0 := by
  have := List.find?_some h
  simpa using this

theorem firstEmpty_eq_none_iff {g : NumGrid} :
    firstEmpty g = none ↔ empties g = [] := by
  rw [firstEmpty, find?_eq_head_filter]
  change (empties g).head? = none ↔ empties g = []
  cases empties g <;> simp

/-
  Embedding of SudokuSolver.solveBacktrack (src/core/SudokuSolver.ts).  The
  source mutates the number grid in place while it searches, so the embedding
  threads the grid and returns the final count together with the final grid
  state.  The inner for-loop over the digits 1..9 becomes sbTry, which
  receives the recursive solver as the continuation `next`; each iteration
  sets the cell (update g p d), recurses, returns at once when the count has
  reached the limit, and otherwise resets the cell (update g2 p 0) before
  trying the next digit, exactly as the source does.  The recursion is made
  structural by an explicit depth bound `fuel`: every recursive call of the
  source reaches a grid with strictly fewer empty cells, so the recursion
  depth never exceeds 81 + 1 and the out-of-fuel branch is unreachable at the
  bound 82 used by sbRun (sb_main below holds for every fuel above the number
  of empty cells, which empties_length_le bounds by 81).
-/

def sbTry (next : NumGrid → Nat → Nat → Nat × NumGrid) (p : Pos) :
    NumGrid → List Nat → Nat → Nat → Nat × NumGrid
  | g, [], _, count => (count, g)
  | g, d :: ds, limit, count =>
    if isSafeInGrid g p.1 p.2 d then
      match next (update g p d) limit count with
      | (c2, g2) =>
        if limit ≤ c2 then (c2, g2)
        else sbTry next p (update g2 p 0) ds limit c2
    else sbTry next p g ds limit count

def solveBacktrack : Nat → NumGrid → Nat → Nat → Nat × NumGrid
  | 0, g, _, count => (count, g)
  | fuel + 1, g, limit, count =>
    if limit ≤ count then (count, g)
    else
      match firstEmpty g with
      | none => (count + 1, g)
      | some p => sbTry (solveBacktrack fuel) p g digits19 limit count

theorem empties_length_le (g : NumGrid) : (empties g).length ≤ 81 :=
  le_trans (List.length_filter_le _ allPos) (by decide)

/-- The (count, grid) result of the embedded solveBacktrack, run at the depth
bound 82 that the at most 81 empty cells can never exhaust. -/
def sbRun (g : NumGrid) (limit count : Nat) : Nat × NumGrid :=
  solveBacktrack 82 g limit count

/-- Projection of a cell grid to a plain numeric grid, as done at the top of
countSolutions, solveBruteForce and updateCandidates in the source
(`c.value !== null ? c.value : 0`). -/
def toNum (g : CellGrid) : NumGrid := fun p => ((g p).value).getD 0

/-- Embedding of SudokuSolver.countSolutions: project the cell grid to
numbers and run the bounded backtracking counter; the default limit is 2 as
in the source. -/
def countSolutions (g : CellGrid) (limit : Nat := 2) : Nat :=
  (sbRun (toNum g) limit 0).1

/-- Embedding of SudokuSolver.solveBruteForce: run the backtracking search
with limit 1 and, when a solution was found, write the final numeric grid
back into the cells' values; returns the success flag and the updated grid. -/
def solveBruteForce (g : CellGrid) : Bool × CellGrid :=
  let r := sbRun (toNum g) 1 0
  if 0 < r.1 then
    (true, fun p => { g p with value := some (r.2 p) })
  else (false, g)

theorem empties_cons_of_firstEmpty {g : NumGrid} {p : Pos} {d : Nat}
    (h : firstEmpty g = some p) (hd : d ≠ 0) :
    empties g = p :: empties (update g p d) := by
  have h1 : (empties g).head? = some p := by
    have h2 := h
    rw [firstEmpty, find?_eq_head_filter] at h2
    exact h2
  cases he : empties g with
  | nil => rw [he] at h1; simp at h1
  | cons a rest =>
    rw [he] at h1
    simp only [List.head?_cons, Option.some.injEq] at h1
    subst h1
    rw [empties_update_eq_erase (firstEmpty_mem h) (firstEmpty_empty h) hd, he,
      List.erase_cons_head]

theorem update_update_same (g : NumGrid) (p : Pos) (d e : Nat) :
    update (update g p d) p e = update g p e := by
  funext q
  simp only [update]
  by_cases h : q = p <;> simp [h]

theorem update_self_of_eq {g : NumGrid} {p : Pos} {d : Nat} (h : g p = d) :
    update g p d = g := by
  funext q
  simp only [update]
  by_cases hq : q = p
  · subst hq; simp [h]
  · simp [hq]

theorem update_apply_ne {g : NumGrid} {p q : Pos} {d : Nat} (h : q ≠ p) :
    update g p d q = g q := by
  simp [update, h]

theorem fillZip_nil_ps (g : NumGrid) (vs : List Nat) : fillZip g [] vs = g := by
  cases vs <;> rfl

theorem fillZip_not_mem {q : Pos} :
    ∀ (ps : List Pos) (g : NumGrid) (vs : List Nat), q ∉ ps → fillZip g ps vs q = g q := by
  intro ps
  induction ps with
  | nil => intro g vs _; rw [fillZip_nil_ps]
  | cons p pt ih =>
    intro g vs hq
    cases vs with
    | nil => rfl
    | cons v vt =>
      rw [fillZip]
      rw [ih (update g p v) vt (fun h => hq (List.mem_cons_of_mem p h))]
      exact update_apply_ne (fun h => hq (h ▸ List.mem_cons_self p pt))

theorem mem_assignments {vs : List Nat} :
    ∀ {k : Nat}, vs ∈ assignments k ↔ vs.length = k ∧ ∀ v ∈ vs, v ∈ digits19 := by
  induction vs with
  | nil =>
    intro k
    cases k with
    | zero => simp [assignments]
    | succ k => simp [assignments, List.mem_flatMap, List.mem_map]
  | cons v vt ih =>
    intro k
    cases k with
    | zero => simp [assignments]
    | succ k =>
      simp only [assignments, List.mem_flatMap, List.mem_map, List.length_cons]
      constructor
      · rintro ⟨d, hd, ws, hws, hco⟩
        cases hco
        have := ih.mp hws
        refine ⟨by omega, ?_⟩
        intro x hx
        rcases List.mem_cons.mp hx with h | h
        · exact h ▸ hd
        · exact this.2 x h
      · rintro ⟨hlen, hall⟩
        refine ⟨v, hall v (List.mem_cons_self v vt), vt, ?_, rfl⟩
        exact ih.mpr ⟨by omega, fun x hx => hall x (List.mem_cons_of_mem v hx)⟩

theorem length_filter_flatMap {α β : Type} (l : List α) (f : α → List β) (pr : β → Bool) :
    ((l.flatMap f).filter pr).length = (l.map fun a => ((f a).filter pr).length).sum := by
  induction l with
  | nil => rfl
  | cons a t ih =>
    simp only [List.flatMap_cons, List.filter_append, List.length_append, List.map_cons,
      List.sum_cons, ih]

theorem length_filter_map {α β : Type} (l : List α) (f : α → β) (pr : β → Bool) :
    ((l.map f).filter pr).length = (l.filter fun a => pr (f a)).length := by
  induction l with
  | nil => rfl
  | cons a t ih =>
    cases h : pr (f a)
    · rw [List.map_cons, List.filter_cons_of_neg (by simp [h]),
        List.filter_cons_of_neg (by simp [h]), ih]
    · rw [List.map_cons, List.filter_cons_of_pos (by rw [h]),
        List.filter_cons_of_pos (by rw [h]), List.length_cons, List.length_cons, ih]

theorem isValidFull_spec {g : NumGrid} :
    isValidFull g = true ↔
      (∀ p ∈ allPos, 1 ≤ g p ∧ g p ≤ 9) ∧
        ∀ p ∈ allPos, ∀ q ∈ allPos, sameUnit p q = true → p ≠ q → g p ≠ g q := by
  simp only [isValidFull, Bool.and_eq_true, List.all_eq_true, Bool.or_eq_true,
    Bool.not_eq_true', beq_iff_eq, beq_eq_false_iff_ne, ne_eq, decide_eq_true_eq]
  constructor
  · rintro ⟨h1, h2⟩
    refine ⟨fun p hp => h1 p hp, ?_⟩
    intro p hp q hq hsu hne
    have h3 := h2 p hp q hq
    simp only [hsu] at h3
    tauto
  · rintro ⟨h1, h2⟩
    refine ⟨fun p hp => h1 p hp, ?_⟩
    intro p hp q hq
    by_cases hsu : sameUnit p q = true
    · by_cases hne : p = q
      · tauto
      · have := h2 p hp q hq hsu hne
        tauto
    · simp only [Bool.not_eq_true] at hsu
      tauto

theorem Consistent_spec {g : NumGrid} :
    Consistent g = true ↔
      ∀ p ∈ allPos, g p ≠ 0 →
        (1 ≤ g p ∧ g p ≤ 9) ∧
          ∀ q ∈ allPos, q ≠ p → sameUnit p q = true → g q ≠ g p := by
  simp only [Consistent, List.all_eq_true, Bool.or_eq_true, Bool.and_eq_true,
    beq_iff_eq, Bool.not_eq_true', beq_eq_false_iff_ne, ne_eq, decide_eq_true_eq]
  constructor
  · intro h p hp hpz
    rcases h p hp with h0 | ⟨⟨h1, h2⟩, h3⟩
    · exact absurd h0 hpz
    · refine ⟨⟨h1, h2⟩, ?_⟩
      intro q hq hqp hsu hgg
      rcases h3 q hq with ((hx | hx) | hx) | hx
      · exact hqp hx
      · exact hpz (hgg.symm.trans hx)
      · rw [hsu] at hx; cases hx
      · exact hx hgg.symm
  · intro h p hp
    by_cases hpz : g p = 0
    · exact Or.inl hpz
    · rcases h p hp hpz with ⟨⟨h1, h2⟩, h3⟩
      refine Or.inr ⟨⟨h1, h2⟩, ?_⟩
      intro q hq
      by_cases hqp : q = p
      · exact Or.inl (Or.inl (Or.inl hqp))
      · by_cases hqz : g q = 0
        · exact Or.inl (Or.inl (Or.inr hqz))
        · by_cases hsu : sameUnit p q = true
          · exact Or.inr (fun hgg => h3 q hq hqp hsu hgg.symm)
          · exact Or.inl (Or.inr (by simpa using hsu))

theorem sameUnit_iff {p q : Pos} :
    sameUnit p q = true ↔
      p.1 = q.1 ∨ p.2 = q.2 ∨ (p.1 / 3 = q.1 / 3 ∧ p.2 / 3 = q.2 / 3) := by
  simp only [sameUnit, Bool.or_eq_true, Bool.and_eq_true, beq_iff_eq]
  tauto

theorem sameUnit_symm {p q : Pos} (h : sameUnit p q = true) : sameUnit q p = true := by
  rw [sameUnit_iff] at h ⊢
  rcases h with h | h | ⟨h1, h2⟩
  · exact Or.inl h.symm
  · exact Or.inr (Or.inl h.symm)
  · exact Or.inr (Or.inr ⟨h1.symm, h2.symm⟩)

theorem isSafe_iff {g : NumGrid} {r c n : Nat} (hr : r < 9) (hc : c < 9) :
    isSafeInGrid g r c n = true ↔
      ∀ q ∈ allPos, sameUnit (r, c) q = true → g q ≠ n := by
  simp only [isSafeInGrid, Bool.and_eq_true, List.all_eq_true, List.mem_range,
    Bool.not_eq_true', Bool.or_eq_false_iff, beq_eq_false_iff_ne, ne_eq]
  constructor
  · rintro ⟨hA, hB⟩ q hq hsu
    obtain ⟨hq1, hq2⟩ := mem_allPos.mp hq
    cases q with
    | mk a b =>
      rcases sameUnit_iff.mp hsu with h | h | ⟨h1, h2⟩
      · simp only at h
        subst h
        exact (hA b hq2).1
      · simp only at h
        subst h
        exact (hA a hq1).2
      · simp only at h1 h2
        have hx := hB (a % 3) (by omega) (b % 3) (by omega)
        have e1 : r - r % 3 + a % 3 = a := by omega
        have e2 : c - c % 3 + b % 3 = b := by omega
        rw [e1, e2] at hx
        exact hx
  · intro h
    constructor
    · intro x hx
      constructor
      · exact h (r, x) (mem_allPos.mpr ⟨hr, hx⟩) (by rw [sameUnit_iff]; left; rfl)
      · exact h (x, c) (mem_allPos.mpr ⟨hx, hc⟩) (by rw [sameUnit_iff]; right; left; rfl)
    · intro i hi j hj
      apply h (r - r % 3 + i, c - c % 3 + j) (mem_allPos.mpr ⟨by omega, by omega⟩)
      rw [sameUnit_iff]
      right; right
      constructor
      · show r / 3 = (r - r % 3 + i) / 3
        omega
      · show c / 3 = (c - c % 3 + j) / 3
        omega

theorem isSafe_false_iff {g : NumGrid} {r c n : Nat} (hr : r < 9) (hc : c < 9) :
    isSafeInGrid g r c n = false ↔
      ∃ q ∈ allPos, sameUnit (r, c) q = true ∧ g q = n := by
  constructor
  · intro hf
    by_contra hno
    push_neg at hno
    have ht : isSafeInGrid g r c n = true :=
      (isSafe_iff hr hc).mpr fun q hq hsu => hno q hq hsu
    rw [hf] at ht
    cases ht
  · rintro ⟨q, hq, hsu, hgq⟩
    cases hsf : isSafeInGrid g r c n
    · rfl
    · exact absurd hgq ((isSafe_iff hr hc).mp hsf q hq hsu)

theorem fillZip_extends (g : NumGrid) (vs : List Nat) {q : Pos} (hq : g q ≠ 0) :
    fillZip g (empties g) vs q = g q := by
  apply fillZip_not_mem
  simp [empties, List.mem_filter, hq]

theorem Nsol_eq_zero_of_conflict {g : NumGrid} {q1 q2 : Pos}
    (h1 : q1 ∈ allPos) (h2 : q2 ∈ allPos) (hne : q1 ≠ q2) (hsu : sameUnit q1 q2 = true)
    (hz1 : g q1 ≠ 0) (hz2 : g q2 ≠ 0) (heq : g q1 = g q2) : Nsol g = 0 := by
  unfold Nsol
  rw [List.length_eq_zero, List.filter_eq_nil_iff]
  intro vs _
  simp only [Bool.not_eq_true]
  cases hval : isValidFull (fillZip g (empties g) vs)
  · rfl
  · exfalso
    have hspec := isValidFull_spec.mp hval
    have e1 : fillZip g (empties g) vs q1 = g q1 := fillZip_extends g vs hz1
    have e2 : fillZip g (empties g) vs q2 = g q2 := fillZip_extends g vs hz2
    exact hspec.2 q1 h1 q2 h2 hsu hne (by rw [e1, e2, heq])

theorem consistent_of_Nsol_pos {g : NumGrid} (h : 1 ≤ Nsol g) : Consistent g = true := by
  unfold Nsol at h
  obtain ⟨vs, hvs⟩ := List.exists_mem_of_length_pos h
  rcases List.mem_filter.mp hvs with ⟨hmem, hval⟩
  have hval' : isValidFull (fillZip g (empties g) vs) = true := by simpa using hval
  have hspec := isValidFull_spec.mp hval'
  rw [Consistent_spec]
  intro p hp hpz
  have hGp : fillZip g (empties g) vs p = g p := fillZip_extends g vs hpz
  constructor
  · have := hspec.1 p hp
    rw [hGp] at this
    exact this
  · intro q hq hqp hsu hgg
    by_cases hqz : g q = 0
    · rw [hqz] at hgg
      exact hpz hgg.symm
    · have hGq : fillZip g (empties g) vs q = g q := fillZip_extends g vs hqz
      exact hspec.2 p hp q hq hsu (fun h => hqp h.symm) (by rw [hGp, hGq, hgg])

theorem Nsol_of_full {g : NumGrid} (hf : empties g = []) :
    Nsol g = if isValidFull g = true then 1 else 0 := by
  unfold Nsol
  rw [hf]
  have hfz : fillZip g [] ([] : List Nat) = g := rfl
  show (List.filter _ [[]]).length = _
  rw [show ([[]] : List (List Nat)) = [] :: [] from rfl]
  cases h : isValidFull g
  · rw [List.filter_cons_of_neg (by simp [hfz, h])]
    simp [h]
  · rw [List.filter_cons_of_pos (by simp [hfz, h])]
    simp [h]

theorem isValidFull_of_consistent_full {g : NumGrid} (hc : Consistent g = true)
    (hf : empties g = []) : isValidFull g = true := by
  have hfull : ∀ p ∈ allPos, g p ≠ 0 := by
    intro p hp h0
    have hm : p ∈ empties g := mem_empties hp h0
    rw [hf] at hm
    cases hm
  rw [isValidFull_spec]
  have hcs := Consistent_spec.mp hc
  constructor
  · intro p hp
    exact (hcs p hp (hfull p hp)).1
  · intro p hp q hq hsu hne hgg
    exact (hcs p hp (hfull p hp)).2 q hq (fun h => hne h.symm) hsu hgg.symm

theorem consistent_update_zero {g : NumGrid} (p : Pos) (hc : Consistent g = true) :
    Consistent (update g p 0) = true := by
  rw [Consistent_spec] at hc ⊢
  intro q hq hqz
  have hqp : q ≠ p := by
    intro h
    subst h
    simp [update] at hqz
  have hgq : update g p 0 q = g q := update_apply_ne hqp
  rcases hc q hq (by rwa [hgq] at hqz) with ⟨⟨hr1, hr2⟩, h3⟩
  constructor
  · rw [hgq]
    exact ⟨hr1, hr2⟩
  · intro s hs hsq hsu
    by_cases hsp : s = p
    · subst hsp
      have hz : update g s 0 s = 0 := by simp [update]
      have hqz' : g q ≠ 0 := by rwa [hgq] at hqz
      rw [hz, hgq]
      intro h0
      exact hqz' h0.symm
    · rw [update_apply_ne hsp, hgq]
      exact h3 s hs hsq hsu

theorem consistent_update_safe {g : NumGrid} {p : Pos} {d : Nat}
    (hc : Consistent g = true) (hmem : p ∈ allPos) (hp0 : g p = 0)
    (hd1 : 1 ≤ d) (hd9 : d ≤ 9)
    (hsafe : isSafeInGrid g p.1 p.2 d = true) : Consistent (update g p d) = true := by
  obtain ⟨hpr, hpc⟩ := mem_allPos.mp hmem
  have hsafe' : ∀ q ∈ allPos, sameUnit p q = true → g q ≠ d := by
    intro q hq hsu
    exact (isSafe_iff hpr hpc).mp hsafe q hq hsu
  rw [Consistent_spec] at hc ⊢
  intro q hq hqz
  by_cases hqp : q = p
  · subst hqp
    have hqd : update g q d q = d := by simp [update]
    constructor
    · rw [hqd]
      exact ⟨hd1, hd9⟩
    · intro s hs hsq hsu
      rw [update_apply_ne hsq, hqd]
      exact hsafe' s hs hsu
  · have hgq : update g p d q = g q := update_apply_ne hqp
    have hqz' : g q ≠ 0 := by rwa [hgq] at hqz
    rcases hc q hq hqz' with ⟨⟨hr1, hr2⟩, h3⟩
    constructor
    · rw [hgq]
      exact ⟨hr1, hr2⟩
    · intro s hs hsq hsu
      by_cases hsp : s = p
      · subst hsp
        have hsd : update g s d s = d := by simp [update]
        rw [hsd, hgq]
        intro hgg
        exact hsafe' q hq (sameUnit_symm hsu) hgg.symm
      · rw [update_apply_ne hsp, hgq]
        exact h3 s hs hsq hsu

theorem mem_digits19_iff {d : Nat} : d ∈ digits19 ↔ 1 ≤ d ∧ d ≤ 9 := by
  simp only [digits19, List.mem_cons, List.not_mem_nil, or_false]
  omega

theorem assignments_succ (k : Nat) :
    assignments (k + 1) = digits19.flatMap fun d => (assignments k).map fun vs => d :: vs := rfl

theorem Nsol_rec {g : NumGrid} {p : Pos} (h : firstEmpty g = some p) :
    Nsol g = (digits19.map fun d => Nsol (update g p d)).sum := by
  have hmem := firstEmpty_mem h
  have hp0 := firstEmpty_empty h
  have htail : ∀ d : Nat, d ≠ 0 → empties (update g p d) = (empties g).erase p :=
    fun d hd => empties_update_eq_erase hmem hp0 hd
  have hcons : empties g = p :: (empties g).erase p := by
    have h1 := empties_cons_of_firstEmpty h (d := 1) (by omega)
    rw [htail 1 (by omega)] at h1
    exact h1
  unfold Nsol
  rw [hcons, List.length_cons, assignments_succ, length_filter_flatMap]
  congr 1
  apply List.map_congr_left
  intro d hd
  have hd0 : d ≠ 0 := by
    have := mem_digits19_iff.mp hd
    omega
  rw [length_filter_map, htail d hd0]
  rfl

theorem Nsol_eq_zero_of_unsafe {g : NumGrid} {p : Pos} {d : Nat}
    (hmem : p ∈ allPos) (hp0 : g p = 0) (hd : d ∈ digits19)
    (hnotsafe : isSafeInGrid g p.1 p.2 d = false) : Nsol (update g p d) = 0 := by
  obtain ⟨hpr, hpc⟩ := mem_allPos.mp hmem
  have hd19 := mem_digits19_iff.mp hd
  obtain ⟨q, hq, hsu, hgq⟩ := (isSafe_false_iff hpr hpc).mp hnotsafe
  have hqp : q ≠ p := by
    intro h
    rw [h, hp0] at hgq
    omega
  have hup : update g p d p = d := by simp [update]
  have huq : update g p d q = g q := update_apply_ne hqp
  exact Nsol_eq_zero_of_conflict hmem hq (fun h => hqp h.symm) hsu
    (by rw [hup]; omega) (by rw [huq, hgq]; omega) (by rw [hup, huq, hgq])

theorem sb_main : ∀ fuel : Nat, ∀ g : NumGrid, (empties g).length < fuel →
    ∀ limit count : Nat, Consistent g = true → count ≤ limit →
      ((solveBacktrack fuel g limit count).1 = min limit (count + Nsol g)) ∧
      ((solveBacktrack fuel g limit count).1 < limit →
        (solveBacktrack fuel g limit count).2 = g) ∧
      (count < limit → limit ≤ (solveBacktrack fuel g limit count).1 →
        firstEmpty (solveBacktrack fuel g limit count).2 = none ∧
        isValidFull (solveBacktrack fuel g limit count).2 = true ∧
        ∀ q : Pos, g q ≠ 0 → (solveBacktrack fuel g limit count).2 q = g q) := by
  intro fuel
  induction fuel with
  | zero =>
    intro g hg
    exact absurd hg (Nat.not_lt_zero _)
  | succ fuel ih =>
    intro g hg limit count hc hcl
    by_cases hguard : limit ≤ count
    · simp only [solveBacktrack]
      rw [if_pos hguard]
      refine ⟨?_, fun _ => rfl, ?_⟩
      · show count = min limit (count + Nsol g)
        omega
      · intro h1 h2
        omega
    · cases hfe : firstEmpty g with
      | none =>
        have hval : isValidFull g = true :=
          isValidFull_of_consistent_full hc (firstEmpty_eq_none_iff.mp hfe)
        have hns : Nsol g = 1 := by
          rw [Nsol_of_full (firstEmpty_eq_none_iff.mp hfe), hval]
          rfl
        simp only [solveBacktrack]
        rw [if_neg hguard, hfe]
        refine ⟨?_, fun _ => rfl, ?_⟩
        · show count + 1 = min limit (count + Nsol g)
          omega
        · intro h1 h2
          exact ⟨hfe, hval, fun q hq => rfl⟩
      | some p =>
        have hpm := firstEmpty_mem hfe
        have hp0 := firstEmpty_empty hfe
        -- Combined statement for the digit loop.
        have htry : ∀ ds : List Nat, (∀ d ∈ ds, d ∈ digits19) →
            ∀ count : Nat, count ≤ limit →
              ((sbTry (solveBacktrack fuel) p g ds limit count).1 =
                min limit (count + (ds.map fun d => Nsol (update g p d)).sum)) ∧
              ((sbTry (solveBacktrack fuel) p g ds limit count).1 < limit →
                (sbTry (solveBacktrack fuel) p g ds limit count).2 = g) ∧
              (count < limit →
                limit ≤ (sbTry (solveBacktrack fuel) p g ds limit count).1 →
                firstEmpty (sbTry (solveBacktrack fuel) p g ds limit count).2 = none ∧
                isValidFull (sbTry (solveBacktrack fuel) p g ds limit count).2 = true ∧
                ∀ q : Pos, g q ≠ 0 →
                  (sbTry (solveBacktrack fuel) p g ds limit count).2 q = g q) := by
          intro ds
          induction ds with
          | nil =>
            intro _ count hcl2
            rw [sbTry]
            refine ⟨?_, fun _ => rfl, ?_⟩
            · show count = min limit (count + (List.map (fun d => Nsol (update g p d)) []).sum)
              simp only [List.map_nil, List.sum_nil, Nat.add_zero]
              omega
            · intro h1 h2
              have h2' : limit ≤ count := h2
              omega
          | cons d ds' ihds =>
            intro hsub count hcl2
            have hd19 : d ∈ digits19 := hsub d (List.mem_cons_self d ds')
            have hdr := mem_digits19_iff.mp hd19
            have hd0 : d ≠ 0 := by omega
            have hsub' : ∀ e ∈ ds', e ∈ digits19 := fun e he => hsub e (List.mem_cons_of_mem d he)
            have hlt : (empties (update g p d)).length < fuel := by
              have := length_empties_update_lt hpm hp0 hd0
              omega
            simp only [sbTry]
            by_cases hsafe : isSafeInGrid g p.1 p.2 d = true
            · rw [if_pos hsafe]
              have hcons : Consistent (update g p d) = true :=
                consistent_update_safe hc hpm hp0 hdr.1 hdr.2 hsafe
              rcases ih (update g p d) hlt limit count hcons hcl2 with ⟨hibf, hibr, hibs⟩
              rcases hr : solveBacktrack fuel (update g p d) limit count with ⟨c2, g2⟩
              rw [hr] at hibf hibr hibs
              dsimp only at hibf hibr hibs ⊢
              by_cases hlim : limit ≤ c2
              · rw [if_pos hlim]
                refine ⟨?_, ?_, ?_⟩
                · show c2 = min limit
                    (count + (List.map (fun d => Nsol (update g p d)) (d :: ds')).sum)
                  simp only [List.map_cons, List.sum_cons]
                  omega
                · intro hcnt
                  have hcnt' : c2 < limit := hcnt
                  omega
                · intro h1 h2
                  rcases hibs (by omega) hlim with ⟨hs1, hs2, hs3⟩
                  refine ⟨hs1, hs2, ?_⟩
                  intro q hq
                  have hqp : q ≠ p := by
                    intro h
                    rw [h] at hq
                    exact hq hp0
                  have hx := hs3 q (by rw [update_apply_ne hqp]; exact hq)
                  rw [update_apply_ne hqp] at hx
                  exact hx
              · rw [if_neg hlim]
                have hg2 : g2 = update g p d := hibr (by omega)
                have hback : update g2 p 0 = g := by
                  rw [hg2, update_update_same, update_self_of_eq hp0]
                rw [hback]
                rcases ihds hsub' c2 (by omega) with ⟨hrf, hrr, hrs⟩
                refine ⟨?_, ?_, ?_⟩
                · rw [hrf]
                  simp only [List.map_cons, List.sum_cons]
                  omega
                · exact hrr
                · intro h1 h2
                  exact hrs (by omega) h2
            · rw [if_neg hsafe]
              have hsafe' : isSafeInGrid g p.1 p.2 d = false := by
                cases h : isSafeInGrid g p.1 p.2 d
                · rfl
                · exact absurd h hsafe
              have hzero : Nsol (update g p d) = 0 :=
                Nsol_eq_zero_of_unsafe hpm hp0 hd19 hsafe'
              rcases ihds hsub' count hcl2 with ⟨hrf, hrr, hrs⟩
              refine ⟨?_, hrr, hrs⟩
              rw [hrf]
              simp only [List.map_cons, List.sum_cons, hzero, Nat.zero_add]
        simp only [solveBacktrack]
        rw [if_neg hguard, hfe]
        rcases htry digits19 (fun d hd => hd) count hcl with ⟨hmf, hmr, hms⟩
        refine ⟨?_, hmr, hms⟩
        rw [Nsol_rec hfe]
        exact hmf

theorem sb_formula {g : NumGrid} (hc : Consistent g = true) (limit count : Nat)
    (hcl : count ≤ limit) :
    (sbRun g limit count).1 = min limit (count + Nsol g) :=
  (sb_main 82 g (by have := empties_length_le g; omega) limit count hc hcl).1

theorem sb_success {g : NumGrid} (hc : Consistent g = true) {limit count : Nat}
    (hlt : count < limit) (hs : limit ≤ (sbRun g limit count).1) :
    firstEmpty (sbRun g limit count).2 = none ∧
      isValidFull (sbRun g limit count).2 = true ∧
      ∀ q : Pos, g q ≠ 0 → (sbRun g limit count).2 q = g q :=
  (sb_main 82 g (by have := empties_length_le g; omega) limit count hc
    (by omega)).2.2 hlt hs

theorem sb_stops (g : NumGrid) (limit count : Nat) (h : limit ≤ count) :
    (sbRun g limit count).1 = count := by
  show (solveBacktrack 82 g limit count).1 = count
  rw [show (82 : Nat) = 81 + 1 from rfl]
  simp only [solveBacktrack]
  rw [if_pos h]

theorem fillZip_map (G : NumGrid) :
    ∀ (ps : List Pos) (g : NumGrid), ps.Nodup →
      ∀ q, fillZip g ps (ps.map G) q = if q ∈ ps then G q else g q := by
  intro ps
  induction ps with
  | nil =>
    intro g _ q
    rw [fillZip_nil_ps]
    simp
  | cons p pt ih =>
    intro g hnd q
    rcases List.nodup_cons.mp hnd with ⟨hpt, hnd'⟩
    rw [List.map_cons, fillZip, ih (update g p (G p)) hnd' q]
    by_cases hq : q ∈ pt
    · rw [if_pos hq, if_pos (List.mem_cons_of_mem p hq)]
    · rw [if_neg hq]
      by_cases hqp : q = p
      · subst hqp
        rw [if_pos (List.mem_cons_self q pt)]
        simp [update]
      · rw [update_apply_ne hqp, if_neg (by simp [hqp, hq])]

theorem map_eq_of_maps_eq {α β : Type} {f f' : α → β} :
    ∀ {l : List α}, l.map f = l.map f' → ∀ a ∈ l, f a = f' a := by
  intro l
  induction l with
  | nil => intro _ a ha; cases ha
  | cons x t ih =>
    intro h a ha
    rw [List.map_cons, List.map_cons] at h
    injection h with h1 h2
    rcases List.mem_cons.mp ha with h | h
    · exact h ▸ h1
    · exact ih h2 a h

theorem two_mem_two_le_length {α : Type} {a b : α} :
    ∀ {l : List α}, a ∈ l → b ∈ l → a ≠ b → 2 ≤ l.length := by
  intro l
  cases l with
  | nil => intro ha; cases ha
  | cons x t =>
    cases t with
    | nil =>
      intro ha hb hne
      rcases List.mem_singleton.mp ha with h
      rcases List.mem_singleton.mp hb with h2
      exact absurd (h.trans h2.symm) hne
    | cons y u =>
      intro _ _ _
      simp only [List.length_cons]
      omega

theorem nodup_append_disjoint {α : Type} :
    ∀ {l1 l2 : List α}, l1.Nodup → l2.Nodup → (∀ a ∈ l1, a ∉ l2) → (l1 ++ l2).Nodup := by
  intro l1 l2 h1 h2 hd
  rw [List.nodup_append]
  exact ⟨h1, h2, fun a ha hb => hd a ha hb⟩

theorem assignments_nodup : ∀ k : Nat, (assignments k).Nodup := by
  intro k
  induction k with
  | zero => simp [assignments]
  | succ k ih =>
    rw [assignments_succ]
    have hgen : ∀ l : List Nat, l.Nodup →
        (l.flatMap fun d => (assignments k).map fun vs => d :: vs).Nodup := by
      intro l
      induction l with
      | nil => intro _; simp
      | cons d dt ihl =>
        intro hnd
        rcases List.nodup_cons.mp hnd with ⟨hdt, hnd'⟩
        rw [List.flatMap_cons]
        apply nodup_append_disjoint
        · exact ih.map fun x y hxy => by injection hxy
        · exact ihl hnd'
        · intro a ha hb
          rcases List.mem_map.mp ha with ⟨vs, _, hvs⟩
          rcases List.mem_flatMap.mp hb with ⟨e, he, hae⟩
          rcases List.mem_map.mp hae with ⟨ws, _, hws⟩
          rw [← hvs] at hws
          injection hws with hde _
          exact hdt (hde ▸ he)
    exact hgen digits19 (by decide)

theorem isValidFull_ext {G G' : NumGrid} (h : ∀ q ∈ allPos, G q = G' q) :
    isValidFull G = true ↔ isValidFull G' = true := by
  rw [isValidFull_spec, isValidFull_spec]
  constructor
  · rintro ⟨h1, h2⟩
    constructor
    · intro p hp
      rw [← h p hp]
      exact h1 p hp
    · intro p hp q hq hsu hne
      rw [← h p hp, ← h q hq]
      exact h2 p hp q hq hsu hne
  · rintro ⟨h1, h2⟩
    constructor
    · intro p hp
      rw [h p hp]
      exact h1 p hp
    · intro p hp q hq hsu hne
      rw [h p hp, h q hq]
      exact h2 p hp q hq hsu hne

theorem empties_nodup (g : NumGrid) : (empties g).Nodup :=
  allPos_nodup.filter _

/-- When a grid has at most one valid completion, any two valid full grids
extending it agree on every in-range position. -/
theorem completion_unique {g : NumGrid} (hn : Nsol g ≤ 1) {G1 G2 : NumGrid}
    (h1v : isValidFull G1 = true) (h2v : isValidFull G2 = true)
    (h1e : ∀ q, g q ≠ 0 → G1 q = g q) (h2e : ∀ q, g q ≠ 0 → G2 q = g q) :
    ∀ q ∈ allPos, G1 q = G2 q := by
  by_contra hne
  push_neg at hne
  rcases hne with ⟨q0, hq0, hne0⟩
  -- Both read-offs are valid assignments counted by Nsol, and they differ.
  have hread : ∀ G : NumGrid, isValidFull G = true → (∀ q, g q ≠ 0 → G q = g q) →
      ((empties g).map G ∈ assignments (empties g).length ∧
        isValidFull (fillZip g (empties g) ((empties g).map G)) = true) := by
    intro G hv he
    have hfz : ∀ q ∈ allPos, fillZip g (empties g) ((empties g).map G) q = G q := by
      intro q hq
      rw [fillZip_map G (empties g) g (empties_nodup g) q]
      by_cases hqe : q ∈ empties g
      · rw [if_pos hqe]
      · rw [if_neg hqe]
        have hgq : g q ≠ 0 := by
          intro h0
          exact hqe (mem_empties hq h0)
        exact (he q hgq).symm
    constructor
    · rw [mem_assignments]
      refine ⟨List.length_map _ _, ?_⟩
      intro v hv2
      rcases List.mem_map.mp hv2 with ⟨q, hq, hvq⟩
      have hqa : q ∈ allPos := (List.mem_filter.mp hq).1
      have := (isValidFull_spec.mp hv).1 q hqa
      rw [mem_digits19_iff, ← hvq]
      omega
    · exact (isValidFull_ext hfz).mpr hv
  have h1 := hread G1 h1v h1e
  have h2 := hread G2 h2v h2e
  have hne' : (empties g).map G1 ≠ (empties g).map G2 := by
    intro heq
    have hq0e : q0 ∈ empties g := by
      apply mem_empties hq0
      by_contra hgz
      exact hne0 ((h1e q0 hgz).trans (h2e q0 hgz).symm)
    exact hne0 (map_eq_of_maps_eq heq q0 hq0e)
  have hmem1 : (empties g).map G1 ∈
      (assignments (empties g).length).filter fun vs =>
        isValidFull (fillZip g (empties g) vs) :=
    List.mem_filter.mpr ⟨h1.1, by rw [h1.2]⟩
  have hmem2 : (empties g).map G2 ∈
      (assignments (empties g).length).filter fun vs =>
        isValidFull (fillZip g (empties g) vs) :=
    List.mem_filter.mpr ⟨h2.1, by rw [h2.2]⟩
  have h2le := two_mem_two_le_length hmem1 hmem2 hne'
  unfold Nsol at hn
  omega

/-
  Embedding of SudokuGenerator.solve (src/core/SudokuGenerator.ts): randomized
  recursive backtracking over the numeric grid.  The source shuffles the digit
  list [1..9] afresh each time it reaches an empty cell; the shuffle outcomes
  are modelled by the parameter `order`, which may depend on the current grid
  state and the position and therefore covers every possible sequence of
  shuffle results.  As with solveBacktrack, the recursion is made structural
  by a depth bound `fuel`; each recursive call of the source fills one more
  cell, so the bound 82 used below is never exhausted.
-/

def gtry (next : NumGrid → Option NumGrid) (p : Pos) :
    NumGrid → List Nat → Option NumGrid
  | _, [] => none
  | g, d :: ds =>
    if isSafeInGrid g p.1 p.2 d then
      match next (update g p d) with
      | some G => some G
      | none => gtry next p g ds
    else gtry next p g ds

def gsolve (order : NumGrid → Pos → List Nat) : Nat → NumGrid → Option NumGrid
  | 0, _ => none
  | fuel + 1, g =>
    match firstEmpty g with
    | none => some g
    | some p => gtry (gsolve order fuel) p g (order g p)

/-- Embedding of the Difficulty enum of src/core/types.ts. -/
inductive Difficulty where
  | easy
  | medium
  | hard
  | expert
  | master
deriving DecidableEq, Repr

/-- Embedding of SudokuGenerator.getCellsToRemove. -/
def getCellsToRemove : Difficulty → Nat
  | .easy => 30
  | .medium => 40
  | .hard => 50
  | .expert => 56
  | .master => 64

/-- The puzzle grid generate builds from the solved grid before digging:
every cell filled with its solution value, given, with empty notes. -/
def initialPuzzle (S : NumGrid) : CellGrid := fun p =>
  { value := some (S p), solutionValue := S p, isGiven := true, notes := [] }

/-- Functional update of a cell grid at one position. -/
def setCell (g : CellGrid) (p : Pos) (c : Cell) : CellGrid :=
  fun q => if q = p then c else g q

/-
  Embedding of SudokuGenerator.removeNumbers.  The source builds the list of
  all 81 positions and shuffles it; the shuffle's output is modelled by the
  parameter ps.  Besides the final grid, digRun returns the list of grid
  states after each individual dig step (the cleared grid when the dig is
  kept, the restored grid when it is reverted); this trace is only used to
  state the uniqueness invariant and does not alter the computation.
-/
/-- Clearing a cell during digging: value set to null and isGiven to false,
other fields untouched. -/
def digClear (g : CellGrid) (p : Pos) : CellGrid :=
  setCell g p { g p with value := none, isGiven := false }

/-- Restoring a reverted dig: put the backed-up value back and mark the cell
given again (`grid[r][c].value = backupValue; grid[r][c].isGiven = true`). -/
def digRestore (g : CellGrid) (p : Pos) (backup : Nat) : CellGrid :=
  setCell g p { g p with value := some backup, isGiven := true }

def digRun (target : Nat) : CellGrid → Nat → List Pos → CellGrid × List CellGrid
  | g, _, [] => (g, [])
  | g, count, p :: ps =>
    if target ≤ count then (g, [])
    else
      match (g p).value with
      | some backup =>
        if countSolutions (digClear g p) ≠ 1 then
          ((digRun target (digRestore (digClear g p) p backup) count ps).1,
            digRestore (digClear g p) p backup ::
              (digRun target (digRestore (digClear g p) p backup) count ps).2)
        else
          ((digRun target (digClear g p) (count + 1) ps).1,
            digClear g p :: (digRun target (digClear g p) (count + 1) ps).2)
      | none => digRun target g count ps

/-- Embedding of SudokuGenerator.generate.  D models the grid produced by
fillDiagonalBoxes (whose rejection-sampling loop is modelled by the
DiagSeededB property of its result), order models the digit shuffles of the
backtracking completion, and ps models the shuffled position list of
removeNumbers.  A generation failure raises an exception in the source,
modelled by Except.error. -/
def generate (order : NumGrid → Pos → List Nat) (D : NumGrid) (ps : List Pos)
    (difficulty : Difficulty) : Except String (CellGrid × NumGrid) :=
  match gsolve order 82 D with
  | none => Except.error "Failed to generate a valid Sudoku grid"
  | some S =>
    Except.ok ((digRun (getCellsToRemove difficulty) (initialPuzzle S) 0 ps).1, S)

/-- The state fillDiagonalBoxes guarantees on exit: the three diagonal 3x3
boxes hold digits 1..9 with no repeat inside a box, and every other cell is
empty.  The rejection-sampling do/while loop of the source is modelled by
this property of its result. -/
def DiagSeededB (D : NumGrid) : Bool :=
  allPos.all fun p =>
    if p.1 / 3 == p.2 / 3 then
      decide (1 ≤ D p) && decide (D p ≤ 9) &&
        (allPos.all fun q =>
          (q == p) || !(p.1 / 3 == q.1 / 3 && p.2 / 3 == q.2 / 3) || !(D p == D q))
    else D p == 0

theorem diagSeeded_spec {D : NumGrid} : DiagSeededB D = true ↔
    ∀ p ∈ allPos,
      (p.1 / 3 = p.2 / 3 →
        (1 ≤ D p ∧ D p ≤ 9) ∧
          ∀ q ∈ allPos, q ≠ p → p.1 / 3 = q.1 / 3 → p.2 / 3 = q.2 / 3 → D p ≠ D q) ∧
      (p.1 / 3 ≠ p.2 / 3 → D p = 0) := by
  rw [DiagSeededB, List.all_eq_true]
  constructor
  · intro h p hp
    have hx := h p hp
    constructor
    · intro hdiag
      rw [if_pos (show (p.1 / 3 == p.2 / 3) = true by simpa using hdiag)] at hx
      simp only [Bool.and_eq_true, decide_eq_true_eq, List.all_eq_true] at hx
      rcases hx with ⟨⟨h1, h2⟩, h3⟩
      refine ⟨⟨h1, h2⟩, ?_⟩
      intro q hq hqp hb1 hb2 hgg
      have hy := h3 q hq
      simp only [Bool.or_eq_true, beq_iff_eq, Bool.not_eq_true', Bool.and_eq_false_iff,
        beq_eq_false_iff_ne, ne_eq] at hy
      tauto
    · intro hnd
      rw [if_neg (show ¬(p.1 / 3 == p.2 / 3) = true by simpa using hnd)] at hx
      simpa using hx
  · intro h p hp
    by_cases hdiag : p.1 / 3 = p.2 / 3
    · rw [if_pos (show (p.1 / 3 == p.2 / 3) = true by simpa using hdiag)]
      rcases (h p hp).1 hdiag with ⟨⟨h1, h2⟩, h3⟩
      simp only [Bool.and_eq_true, decide_eq_true_eq, List.all_eq_true]
      refine ⟨⟨h1, h2⟩, ?_⟩
      intro q hq
      simp only [Bool.or_eq_true, beq_iff_eq, Bool.not_eq_true', Bool.and_eq_false_iff,
        beq_eq_false_iff_ne, ne_eq]
      by_cases hqp : q = p
      · tauto
      · by_cases hb1 : p.1 / 3 = q.1 / 3
        · by_cases hb2 : p.2 / 3 = q.2 / 3
          · have := h3 q hq hqp hb1 hb2
            tauto
          · tauto
        · tauto
    · rw [if_neg (show ¬(p.1 / 3 == p.2 / 3) = true by simpa using hdiag)]
      simpa using (h p hp).2 hdiag

theorem consistent_of_diagSeeded {D : NumGrid} (h : DiagSeededB D = true) :
    Consistent D = true := by
  rw [Consistent_spec]
  have hs := diagSeeded_spec.mp h
  intro p hp hpz
  have hdiag : p.1 / 3 = p.2 / 3 := by
    by_contra hnd
    exact hpz ((hs p hp).2 hnd)
  rcases (hs p hp).1 hdiag with ⟨⟨h1, h2⟩, h3⟩
  refine ⟨⟨h1, h2⟩, ?_⟩
  intro q hq hqp hsu hgg
  have hqz : D q ≠ 0 := by
    rw [hgg]
    exact hpz
  have hqdiag : q.1 / 3 = q.2 / 3 := by
    by_contra hnd
    exact hqz ((hs q hq).2 hnd)
  have hbox : p.1 / 3 = q.1 / 3 ∧ p.2 / 3 = q.2 / 3 := by
    rcases sameUnit_iff.mp hsu with hx | hx | hx
    · constructor
      · rw [hx]
      · rw [← hqdiag, ← hx, hdiag]
    · constructor
      · rw [hdiag, hx, hqdiag]
      · rw [hx]
    · exact hx
  exact h3 q hq hqp hbox.1 hbox.2 hgg.symm

theorem gsolve_sound (order : NumGrid → Pos → List Nat)
    (hord : ∀ g p, ∀ d ∈ order g p, 1 ≤ d ∧ d ≤ 9) :
    ∀ fuel : Nat, ∀ g : NumGrid, Consistent g = true →
      ∀ G : NumGrid, gsolve order fuel g = some G →
        Consistent G = true ∧ firstEmpty G = none ∧ ∀ q, g q ≠ 0 → G q = g q := by
  intro fuel
  induction fuel with
  | zero =>
    intro g hc G hG
    simp only [gsolve] at hG
    cases hG
  | succ fuel ih =>
    intro g hc G hG
    simp only [gsolve] at hG
    cases hfe : firstEmpty g with
    | none =>
      rw [hfe] at hG
      have hG' : some g = some G := hG
      injection hG' with h
      subst h
      exact ⟨hc, hfe, fun q _ => rfl⟩
    | some p =>
      rw [hfe] at hG
      have hpm := firstEmpty_mem hfe
      have hp0 := firstEmpty_empty hfe
      have htry : ∀ ds : List Nat, (∀ d ∈ ds, 1 ≤ d ∧ d ≤ 9) →
          ∀ G : NumGrid, gtry (gsolve order fuel) p g ds = some G →
            Consistent G = true ∧ firstEmpty G = none ∧ ∀ q, g q ≠ 0 → G q = g q := by
        intro ds
        induction ds with
        | nil =>
          intro _ G hG2
          simp only [gtry] at hG2
          cases hG2
        | cons d ds' ihds =>
          intro hds G hG2
          simp only [gtry] at hG2
          by_cases hsafe : isSafeInGrid g p.1 p.2 d = true
          · rw [if_pos hsafe] at hG2
            cases hres : gsolve order fuel (update g p d) with
            | some G2 =>
              rw [hres] at hG2
              have hGG : G2 = G := by injection hG2
              subst hGG
              have hd19 := hds d (List.mem_cons_self d ds')
              have hcons : Consistent (update g p d) = true :=
                consistent_update_safe hc hpm hp0 hd19.1 hd19.2 hsafe
              rcases ih (update g p d) hcons G2 hres with ⟨hrc, hrf, hre⟩
              refine ⟨hrc, hrf, ?_⟩
              intro q hq
              have hqp : q ≠ p := by
                intro h
                rw [h] at hq
                exact hq hp0
              have := hre q (by rw [update_apply_ne hqp]; exact hq)
              rw [update_apply_ne hqp] at this
              exact this
            | none =>
              rw [hres] at hG2
              exact ihds (fun e he => hds e (List.mem_cons_of_mem d he)) G hG2
          · rw [if_neg hsafe] at hG2
            exact ihds (fun e he => hds e (List.mem_cons_of_mem d he)) G hG2
      exact htry (order g p) (hord g p) G hG

theorem toNum_initialPuzzle (S : NumGrid) : toNum (initialPuzzle S) = S := rfl

theorem toNum_setCell (g : CellGrid) (p : Pos) (c : Cell) :
    toNum (setCell g p c) = update (toNum g) p (c.value.getD 0) := by
  funext q
  by_cases h : q = p <;> simp [setCell, toNum, update, h]

theorem empties_eq_nil_of_valid {S : NumGrid} (h : isValidFull S = true) :
    empties S = [] := by
  rw [empties, List.filter_eq_nil_iff]
  intro p hp
  have := (isValidFull_spec.mp h).1 p hp
  simp only [beq_iff_eq]
  omega

theorem Nsol_eq_one_of_valid {S : NumGrid} (h : isValidFull S = true) : Nsol S = 1 := by
  rw [Nsol_of_full (empties_eq_nil_of_valid h), h]
  rfl

/-- After a kept or reverted dig step the numeric grid stays uniquely
completable, and so does the final grid of removeNumbers. -/
theorem toNum_digClear (g : CellGrid) (p : Pos) :
    toNum (digClear g p) = update (toNum g) p 0 := by
  funext q
  by_cases h : q = p <;> simp [digClear, setCell, toNum, update, h]

theorem toNum_digRestore {g : CellGrid} {p : Pos} {backup : Nat}
    (hv : (g p).value = some backup) :
    toNum (digRestore (digClear g p) p backup) = toNum g := by
  funext q
  by_cases h : q = p
  · subst h
    simp [digRestore, digClear, setCell, toNum, hv]
  · simp [digRestore, digClear, setCell, toNum, h]

/-- After a kept or reverted dig step the numeric grid stays uniquely
completable, and so does the final grid of removeNumbers. -/
theorem digRun_invariant (target : Nat) :
    ∀ (ps : List Pos) (g : CellGrid) (count : Nat), Nsol (toNum g) = 1 →
      Nsol (toNum (digRun target g count ps).1) = 1 ∧
        ∀ h ∈ (digRun target g count ps).2, Nsol (toNum h) = 1 := by
  intro ps
  induction ps with
  | nil =>
    intro g count hg
    refine ⟨hg, ?_⟩
    intro h hh
    cases hh
  | cons p ps ih =>
    intro g count hg
    rw [digRun]
    by_cases hstop : target ≤ count
    · rw [if_pos hstop]
      exact ⟨hg, fun h hh => by cases hh⟩
    · rw [if_neg hstop]
      cases hv : (g p).value with
      | none => exact ih g count hg
      | some backup =>
        dsimp only
        have hcg : Consistent (toNum g) = true := consistent_of_Nsol_pos (by omega)
        have hc1 : Consistent (toNum (digClear g p)) = true := by
          rw [toNum_digClear]
          exact consistent_update_zero p hcg
        have hcount : countSolutions (digClear g p) = min 2 (Nsol (toNum (digClear g p))) := by
          unfold countSolutions
          rw [sb_formula hc1 2 0 (by omega)]
          simp
        have hrest : Nsol (toNum (digRestore (digClear g p) p backup)) = 1 := by
          rw [toNum_digRestore hv]
          exact hg
        by_cases hone : countSolutions (digClear g p) ≠ 1
        · rw [if_pos hone]
          rcases ih _ count hrest with ⟨hf, ht⟩
          refine ⟨hf, ?_⟩
          intro h hh
          rcases List.mem_cons.mp hh with hh | hh
          · rw [hh]
            exact hrest
          · exact ht h hh
        · rw [if_neg hone]
          push_neg at hone
          have hg1 : Nsol (toNum (digClear g p)) = 1 := by
            rw [hcount] at hone
            omega
          rcases ih _ (count + 1) hg1 with ⟨hf, ht⟩
          refine ⟨hf, ?_⟩
          intro h hh
          rcases List.mem_cons.mp hh with hh | hh
          · rw [hh]
            exact hg1
          · exact ht h hh

/-- The cell-level invariant maintained by removeNumbers: givenness tracks
filledness, every value matches the stored solution digit, the stored
solution digit matches the solution grid, and notes stay empty. -/
def CellInv (S : NumGrid) (g : CellGrid) : Prop :=
  ∀ p : Pos,
    ((g p).isGiven = true ↔ (g p).value ≠ none) ∧
    (∀ v, (g p).value = some v → v = (g p).solutionValue) ∧
    (g p).solutionValue = S p ∧ (g p).notes = []

theorem initialPuzzle_cellInv (S : NumGrid) : CellInv S (initialPuzzle S) := by
  intro p
  refine ⟨by simp [initialPuzzle], ?_, rfl, rfl⟩
  intro v hv
  simp only [initialPuzzle, Option.some.injEq] at hv
  exact hv.symm

theorem cellInv_digClear {S : NumGrid} {g : CellGrid} (p : Pos) (h : CellInv S g) :
    CellInv S (digClear g p) := by
  intro q
  by_cases hq : q = p
  · subst hq
    refine ⟨by simp [digClear, setCell], ?_, ?_, ?_⟩
    · intro v hv
      simp [digClear, setCell] at hv
    · simpa [digClear, setCell] using (h q).2.2.1
    · simpa [digClear, setCell] using (h q).2.2.2
  · have he : digClear g p q = g q := by simp [digClear, setCell, hq]
    rw [he]
    exact h q

theorem cellInv_digRestore {S : NumGrid} {g : CellGrid} {p : Pos} {backup : Nat}
    (h : CellInv S g) (hv : (g p).value = some backup) :
    CellInv S (digRestore (digClear g p) p backup) := by
  intro q
  by_cases hq : q = p
  · subst hq
    have hb : backup = (g q).solutionValue := (h q).2.1 backup hv
    refine ⟨by simp [digRestore, digClear, setCell], ?_, ?_, ?_⟩
    · intro v hv2
      simp [digRestore, digClear, setCell] at hv2 ⊢
      omega
    · simpa [digRestore, digClear, setCell] using (h q).2.2.1
    · simpa [digRestore, digClear, setCell] using (h q).2.2.2
  · have he : digRestore (digClear g p) p backup q = g q := by
      simp [digRestore, digClear, setCell, hq]
    rw [he]
    exact h q

theorem digRun_cellInv {S : NumGrid} (target : Nat) :
    ∀ (ps : List Pos) (g : CellGrid) (count : Nat), CellInv S g →
      CellInv S (digRun target g count ps).1 := by
  intro ps
  induction ps with
  | nil => intro g count hg; exact hg
  | cons p ps ih =>
    intro g count hg
    rw [digRun]
    by_cases hstop : target ≤ count
    · rw [if_pos hstop]
      exact hg
    · rw [if_neg hstop]
      cases hv : (g p).value with
      | none => exact ih g count hg
      | some backup =>
        dsimp only
        by_cases hone : countSolutions (digClear g p) ≠ 1
        · rw [if_pos hone]
          exact ih _ count (cellInv_digRestore hg hv)
        · rw [if_neg hone]
          exact ih _ (count + 1) (cellInv_digClear p hg)

theorem countSolutions_eq_one_of_Nsol_one {g : CellGrid} (h : Nsol (toNum g) = 1) :
    countSolutions g = 1 := by
  unfold countSolutions
  rw [sb_formula (consistent_of_Nsol_pos (by omega)) 2 0 (by omega)]
  simp [h]

/-- The solution count of the backtracking search never leaves the interval
[count, limit]: whatever the grid, the count only grows and the search
returns as soon as it reaches the limit. -/
theorem sb_le : ∀ fuel : Nat, ∀ (g : NumGrid) (limit count : Nat), count ≤ limit →
    count ≤ (solveBacktrack fuel g limit count).1 ∧
      (solveBacktrack fuel g limit count).1 ≤ limit := by
  intro fuel
  induction fuel with
  | zero =>
    intro g limit count hcl
    exact ⟨le_refl _, hcl⟩
  | succ fuel ih =>
    intro g limit count hcl
    simp only [solveBacktrack]
    by_cases hguard : limit ≤ count
    · rw [if_pos hguard]
      exact ⟨le_refl _, hcl⟩
    · rw [if_neg hguard]
      cases hfe : firstEmpty g with
      | none =>
        refine ⟨?_, ?_⟩
        · show count ≤ count + 1
          omega
        · show count + 1 ≤ limit
          omega
      | some p =>
        have htry : ∀ (ds : List Nat) (g : NumGrid) (count : Nat), count ≤ limit →
            count ≤ (sbTry (solveBacktrack fuel) p g ds limit count).1 ∧
              (sbTry (solveBacktrack fuel) p g ds limit count).1 ≤ limit := by
          intro ds
          induction ds with
          | nil =>
            intro g count hcl2
            rw [sbTry]
            exact ⟨le_refl _, hcl2⟩
          | cons d ds' ihds =>
            intro g count hcl2
            rw [sbTry]
            by_cases hsafe : isSafeInGrid g p.1 p.2 d = true
            · rw [if_pos hsafe]
              rcases hr : solveBacktrack fuel (update g p d) limit count with ⟨c2, g2⟩
              have hib := ih (update g p d) limit count hcl2
              rw [hr] at hib
              dsimp only at hib ⊢
              by_cases hlim : limit ≤ c2
              · rw [if_pos hlim]
                exact hib
              · rw [if_neg hlim]
                rcases ihds (update g2 p 0) c2 (by omega) with ⟨h1, h2⟩
                exact ⟨le_trans hib.1 h1, h2⟩
            · rw [if_neg hsafe]
              exact ihds g count hcl2
        exact htry digits19 g count hcl

/-- A concrete valid solved grid, used to instantiate the generator theorems
at explicit inputs. -/
def SfullF : NumGrid := fun p => (3 * (p.1 % 3) + p.1 / 3 % 3 + p.2) % 9 + 1

/-- A concrete seed grid: the three diagonal boxes of SfullF, all other cells
empty — a possible output of fillDiagonalBoxes. -/
def DX : NumGrid := fun p => if p.1 / 3 == p.2 / 3 then SfullF p else 0

/-- A concrete digit order: the solution digit first, then the rest — a
possible outcome of the digit shuffles. -/
def ordX : NumGrid → Pos → List Nat := fun _ p =>
  SfullF p :: digits19.filter fun e => !(e == SfullF p)

theorem cons_filter_perm {d : Nat} (hd : d ∈ digits19) :
    (d :: digits19.filter fun e => !(e == d)).Perm digits19 := by
  rcases mem_digits19_iff.mp hd with ⟨h1, h2⟩
  interval_cases d <;> decide

theorem SfullF_mem_digits19 (p : Pos) : SfullF p ∈ digits19 := by
  rw [mem_digits19_iff]
  refine ⟨Nat.succ_le_succ (Nat.zero_le _), ?_⟩
  have := Nat.mod_lt (3 * (p.1 % 3) + p.1 / 3 % 3 + p.2) (show 0 < 9 by omega)
  show (3 * (p.1 % 3) + p.1 / 3 % 3 + p.2) % 9 + 1 ≤ 9
  omega

theorem ordX_perm : ∀ g p, (ordX g p).Perm digits19 :=
  fun _ p => cons_filter_perm (SfullF_mem_digits19 p)

/-- A full cell grid whose givens conflict: every cell holds 1. -/
def gBadC4 : CellGrid :=
  fun _ => { value := some 1, notes := [], isGiven := true, solutionValue := 1 }

/-- C1: uniqueness is an invariant of hole digging.  When generation returns
without throwing, the returned puzzle grid has exactly one completion — both
in the sense of the specification-side count Nsol and as computed by
countSolutions with its default limit 2 — and after every individual dig
step inside removeNumbers, kept or reverted, the intermediate grid still has
exactly one completion. -/
theorem generate_uniqueness_invariant (order : NumGrid → Pos → List Nat)
    (hord : ∀ g p, (order g p).Perm digits19) (D : NumGrid) (ps : List Pos)
    (difficulty : Difficulty) (hD : DiagSeededB D = true) :
    match generate order D ps difficulty with
    | .error _ => True
    | .ok (P, S) =>
        (countSolutions P = 1 ∧ Nsol (toNum P) = 1) ∧
          ∀ g ∈ (digRun (getCellsToRemove difficulty) (initialPuzzle S) 0 ps).2,
            countSolutions g = 1 ∧ Nsol (toNum g) = 1 := by
  unfold generate
  cases hres : gsolve order 82 D with
  | none => trivial
  | some S =>
    dsimp only
    rcases gsolve_sound order
      (fun g p d hd => mem_digits19_iff.mp ((hord g p).mem_iff.mp hd)) 82 D
      (consistent_of_diagSeeded hD) S hres with ⟨hSc, hSf, _⟩
    have hSval : isValidFull S = true :=
      isValidFull_of_consistent_full hSc (firstEmpty_eq_none_iff.mp hSf)
    have hinit : Nsol (toNum (initialPuzzle S)) = 1 := by
      rw [toNum_initialPuzzle]
      exact Nsol_eq_one_of_valid hSval
    rcases digRun_invariant (getCellsToRemove difficulty) ps (initialPuzzle S) 0 hinit
      with ⟨hf, ht⟩
    exact ⟨⟨countSolutions_eq_one_of_Nsol_one hf, hf⟩,
      fun g hg => ⟨countSolutions_eq_one_of_Nsol_one (ht g hg), ht g hg⟩⟩

theorem generate_uniqueness_invariant_witness :
    ((generate ordX DX [] Difficulty.easy).isOk = true ∧ DiagSeededB DX = true) ∧
    (match generate ordX DX [] Difficulty.easy with
    | .error _ => True
    | .ok (P, S) =>
        (countSolutions P = 1 ∧ Nsol (toNum P) = 1) ∧
          ∀ g ∈ (digRun (getCellsToRemove Difficulty.easy) (initialPuzzle S) 0 []).2,
            countSolutions g = 1 ∧ Nsol (toNum g) = 1) :=
  ⟨⟨by decide, by decide⟩,
    generate_uniqueness_invariant ordX ordX_perm DX [] Difficulty.easy (by decide)⟩

/-- C10: cell consistency of generated puzzles.  When generation returns
without throwing, every cell of the returned puzzle satisfies: isGiven holds
exactly when the value is non-null, every non-null value equals the cell's
solutionValue, the solutionValue equals the corresponding entry of the
returned solution grid, and the notes list is empty. -/
theorem generate_cell_consistency (order : NumGrid → Pos → List Nat)
    (D : NumGrid) (ps : List Pos) (difficulty : Difficulty) :
    match generate order D ps difficulty with
    | .error _ => True
    | .ok (P, S) =>
        ∀ p : Pos,
          ((P p).isGiven = true ↔ (P p).value ≠ none) ∧
          (∀ v, (P p).value = some v → v = (P p).solutionValue) ∧
          (P p).solutionValue = S p ∧ (P p).notes = [] := by
  unfold generate
  cases hres : gsolve order 82 D with
  | none => trivial
  | some S =>
    dsimp only
    exact digRun_cellInv (getCellsToRemove difficulty) ps (initialPuzzle S) 0
      (initialPuzzle_cellInv S)

/-- C7: brute-force round trip.  When generation returns without throwing,
solveBruteForce on the returned puzzle reports success and afterwards every
in-range cell's value equals that cell's stored solutionValue. -/
theorem generate_bruteforce_roundtrip (order : NumGrid → Pos → List Nat)
    (hord : ∀ g p, (order g p).Perm digits19) (D : NumGrid) (ps : List Pos)
    (difficulty : Difficulty) (hD : DiagSeededB D = true) :
    match generate order D ps difficulty with
    | .error _ => True
    | .ok (P, S) =>
        (solveBruteForce P).1 = true ∧
          ∀ p ∈ allPos, ((solveBruteForce P).2 p).value = some ((P p).solutionValue) := by
  unfold generate
  cases hres : gsolve order 82 D with
  | none => trivial
  | some S =>
    dsimp only
    rcases gsolve_sound order
      (fun g p d hd => mem_digits19_iff.mp ((hord g p).mem_iff.mp hd)) 82 D
      (consistent_of_diagSeeded hD) S hres with ⟨hSc, hSf, _⟩
    have hSval : isValidFull S = true :=
      isValidFull_of_consistent_full hSc (firstEmpty_eq_none_iff.mp hSf)
    have hinit : Nsol (toNum (initialPuzzle S)) = 1 := by
      rw [toNum_initialPuzzle]
      exact Nsol_eq_one_of_valid hSval
    have hinv : CellInv S (digRun (getCellsToRemove difficulty) (initialPuzzle S) 0 ps).1 :=
      digRun_cellInv (getCellsToRemove difficulty) ps (initialPuzzle S) 0
        (initialPuzzle_cellInv S)
    have hone : Nsol (toNum (digRun (getCellsToRemove difficulty)
        (initialPuzzle S) 0 ps).1) = 1 :=
      (digRun_invariant (getCellsToRemove difficulty) ps (initialPuzzle S) 0 hinit).1
    set P := (digRun (getCellsToRemove difficulty) (initialPuzzle S) 0 ps).1 with hP
    have hSext : ∀ q : Pos, toNum P q ≠ 0 → S q = toNum P q := by
      intro q hq
      cases hval : (P q).value with
      | none => simp [toNum, hval] at hq
      | some v =>
        have hv2 := (hinv q).2.1 v hval
        have hv3 := (hinv q).2.2.1
        simp only [toNum, hval, Option.getD_some]
        rw [← hv3, ← hv2]
    have hcP : Consistent (toNum P) = true := consistent_of_Nsol_pos (by omega)
    have hform : (sbRun (toNum P) 1 0).1 = 1 := by
      rw [sb_formula hcP 1 0 (by omega), hone]
      omega
    rcases sb_success hcP (by omega : (0:Nat) < 1) (by omega) with ⟨hrf, hrv, hre⟩
    have hagree : ∀ q ∈ allPos, (sbRun (toNum P) 1 0).2 q = S q := by
      have := completion_unique (g := toNum P) (by omega) hrv hSval hre hSext
      exact this
    unfold solveBruteForce
    dsimp only
    rw [if_pos (by omega : 0 < (sbRun (toNum P) 1 0).1)]
    refine ⟨rfl, ?_⟩
    intro p hp
    show some ((sbRun (toNum P) 1 0).2 p) = some ((P p).solutionValue)
    rw [hagree p hp, (hinv p).2.2.1]

theorem generate_bruteforce_roundtrip_witness :
    ((generate ordX DX [] Difficulty.easy).isOk = true ∧ DiagSeededB DX = true) ∧
    (match generate ordX DX [] Difficulty.easy with
    | .error _ => True
    | .ok (P, S) =>
        (solveBruteForce P).1 = true ∧
          ∀ p ∈ allPos, ((solveBruteForce P).2 p).value = some ((P p).solutionValue)) :=
  ⟨⟨by decide, by decide⟩,
    generate_bruteforce_roundtrip ordX ordX_perm DX [] Difficulty.easy (by decide)⟩

/-- C4 (corrected): the solution counter respects its limit.  Under the added
hypothesis that the grid's filled cells are mutually consistent — dropped by
the claim, and necessary, see the counterexample — countSolutions equals the
minimum of the limit and the number of valid full completions, for every
limit.  Unconditionally, the running count never exceeds the limit, the
search returns at once when the count has reached the limit, and the default
limit is 2. -/
theorem countSolutions_respects_limit (g : CellGrid)
    (hc : Consistent (toNum g) = true) :
    (∀ L : Nat, countSolutions g L = min L (Nsol (toNum g))) ∧
    (∀ L count : Nat, count ≤ L → (sbRun (toNum g) L count).1 ≤ L) ∧
    (∀ L count : Nat, L ≤ count → (sbRun (toNum g) L count).1 = count) ∧
    countSolutions g = min 2 (Nsol (toNum g)) := by
  have h1 : ∀ L : Nat, countSolutions g L = min L (Nsol (toNum g)) := by
    intro L
    unfold countSolutions
    rw [sb_formula hc L 0 (by omega), Nat.zero_add]
  exact ⟨h1, fun L count h => (sb_le 82 (toNum g) L count h).2,
    fun L count h => sb_stops (toNum g) L count h, h1 2⟩

theorem countSolutions_respects_limit_witness :
    Consistent (toNum (initialPuzzle SfullF)) = true ∧
      countSolutions (initialPuzzle SfullF) =
        min 2 (Nsol (toNum (initialPuzzle SfullF))) :=
  ⟨by decide,
    (countSolutions_respects_limit (initialPuzzle SfullF) (by decide)).2.2.2⟩

/-- C4 counterexample: on a full grid whose givens conflict (every cell holds
1) the counter still reports one solution — findEmptyCell finds no empty cell
and the count is incremented without any validity check — although the grid
has no valid completion, so the claimed unconditional formula
min limit (number of completions) fails at its default limit 2. -/
theorem countSolutions_limit_counterexample :
    countSolutions gBadC4 = 1 ∧ Nsol (toNum gBadC4) = 0 ∧
      countSolutions gBadC4 ≠ min 2 (Nsol (toNum gBadC4)) := by decide

/-
  Embedding of the technique layer (src/core/SudokuSolver.ts and
  src/core/techniques/*).  The explanation strings of the source results are
  UI text and are dropped from the embedding; every other field of
  TechniqueResult is kept.  JavaScript Sets iterated in insertion order are
  modelled by dedupFirst, which keeps the first occurrence of each element.
-/

/-- Embedding of the TechniqueType enum of src/core/types.ts. -/
inductive TechniqueType where
  | lastFreeCell
  | hiddenSingle
  | nakedSingle
  | lockedPointing
  | lockedClaiming
  | nakedPair
  | hiddenPair
  | nakedTriple
  | hiddenTriple
  | nakedQuad
  | hiddenQuad
  | xWing
  | xyWing
  | xyzWing
  | swordfish
  | skyscraper
  | bugPlusOne
  | fastSolve
  | crossHatching
deriving DecidableEq, Repr

/-- A (row, col, value) triple as used for eliminations and placements. -/
structure Candidate where
  row : Nat
  col : Nat
  value : Nat
deriving DecidableEq, Repr

/-- Embedding of the TechniqueResult interface (explanation dropped). -/
structure TechniqueResult where
  technique : TechniqueType
  primaryCells : List Pos
  secondaryCells : List Pos := []
  eliminations : List Candidate
  placement : Option Candidate := none
deriving DecidableEq, Repr

/-- Eager or-else on optional results (the source's `if (x) return x`). -/
def orO {α : Type} (a b : Option α) : Option α :=
  match a with
  | some r => some r
  | none => b

/-- Deduplication keeping the first occurrence, as a JavaScript Set iterated
in insertion order. -/
def dedupFirst {α : Type} [BEq α] : List α → List α
  | [] => []
  | a :: t => a :: (dedupFirst t).filter fun b => !(b == a)

/-- Embedding of getCombinations of Subsets.ts / Wings.ts / the fish file:
all size-element sublists, in the source's order. -/
def getCombinations {α : Type} : List α → Nat → List (List α)
  | arr, size =>
    if size = 1 then arr.map fun item => [item]
    else
      match arr with
      | [] => []
      | a :: rest =>
        ((getCombinations rest (size - 1)).map fun combo => a :: combo) ++
          getCombinations rest size

/-- Embedding of isPeer of Wings.ts. -/
def isPeer (r1 c1 r2 c2 : Nat) : Bool :=
  if r1 == r2 && c1 == c2 then false
  else r1 == r2 || c1 == c2 || (r1 / 3 == r2 / 3 && c1 / 3 == c2 / 3)

/-- The cells of a row, in scan order. -/
def unitRow (r : Nat) : List Pos := (List.range 9).map fun c => (r, c)

/-- The cells of a column, in scan order. -/
def unitCol (c : Nat) : List Pos := (List.range 9).map fun r => (r, c)

/-- The cells of the 3x3 box whose top-left corner is (br, bc). -/
def unitBoxStart (br bc : Nat) : List Pos :=
  (List.range 3).flatMap fun i => (List.range 3).map fun j => (br + i, bc + j)

/-- Embedding of SudokuSolver.updateCandidates: recompute every cell's notes
from the placed values only.  The source caches the numeric grid
(`cell.value || 0`) before the loop and rewrites each cell's notes in place;
value, isGiven and solutionValue are untouched. -/
def updateCandidates (g : CellGrid) : CellGrid := fun p =>
  if (g p).value = none then
    { g p with notes := digits19.filter fun n => isSafeInGrid (toNum g) p.1 p.2 n }
  else
    { g p with notes := [] }

/-- Embedding of SudokuSolver.isSolved. -/
def isSolved (g : CellGrid) : Bool := allPos.all fun p => !((g p).value == none)

/-- Embedding of SudokuSolver.findNakedSingle. -/
def findNakedSingle (g : CellGrid) : Option TechniqueResult :=
  allPos.findSome? fun p =>
    if (g p).value = none ∧ (g p).notes.length = 1 then
      some { technique := .nakedSingle, primaryCells := [p], eliminations := [],
             placement := some ⟨p.1, p.2, (g p).notes.headD 0⟩ }
    else none

/-- The occurrence count of candidate n over a unit's empty cells (the
source's counts array, incremented once per occurrence in a notes list). -/
def hsCount (g : CellGrid) (cells : List Pos) (n : Nat) : Nat :=
  (cells.map fun p =>
    if (g p).value == none then ((g p).notes.filter fun m => m == n).length else 0).sum

/-- The unit's empty cells holding candidate n; the source's pos array keeps
the last of them. -/
def candCells (g : CellGrid) (cells : List Pos) (n : Nat) : List Pos :=
  cells.filter fun p => (g p).value == none && (g p).notes.contains n

/-- One unit of SudokuSolver.findHiddenSingle. -/
def findHiddenSingleInUnit (g : CellGrid) (cells : List Pos) : Option TechniqueResult :=
  digits19.findSome? fun n =>
    if hsCount g cells n = 1 then
      match (candCells g cells n).getLast? with
      | some p =>
        some { technique := .hiddenSingle, primaryCells := [p], eliminations := [],
               placement := some ⟨p.1, p.2, n⟩ }
      | none => none
    else none

/-- Embedding of SudokuSolver.findHiddenSingle: rows, then columns, then
boxes (box corners 0, 3, 6). -/
def findHiddenSingle (g : CellGrid) : Option TechniqueResult :=
  orO ((List.range 9).findSome? fun r => findHiddenSingleInUnit g (unitRow r))
    (orO ((List.range 9).findSome? fun c => findHiddenSingleInUnit g (unitCol c))
      (((List.range 3).map fun i => 3 * i).findSome? fun br =>
        ((List.range 3).map fun j => 3 * j).findSome? fun bc =>
          findHiddenSingleInUnit g (unitBoxStart br bc)))

/-- The pointing check of findLockedCandidates for one box and one digit. -/
def lcPointingBoxDigit (g : CellGrid) (br bc n : Nat) : Option TechniqueResult :=
  let positions := (unitBoxStart br bc).filter fun p =>
    (g p).value == none && (g p).notes.contains n
  if positions.length < 2 then none
  else
    let p0 := positions.headD (0, 0)
    let rowElims :=
      if positions.all fun p => p.1 == p0.1 then
        (List.range 9).filterMap fun c =>
          if bc ≤ c ∧ c < bc + 3 then none
          else if (g (p0.1, c)).value = none ∧ (g (p0.1, c)).notes.contains n then
            some (Candidate.mk p0.1 c n)
          else none
      else []
    if rowElims ≠ [] then
      some { technique := .lockedPointing, primaryCells := positions,
             eliminations := rowElims }
    else
      let colElims :=
        if positions.all fun p => p.2 == p0.2 then
          (List.range 9).filterMap fun r =>
            if br ≤ r ∧ r < br + 3 then none
            else if (g (r, p0.2)).value = none ∧ (g (r, p0.2)).notes.contains n then
              some (Candidate.mk r p0.2 n)
            else none
        else []
      if colElims ≠ [] then
        some { technique := .lockedPointing, primaryCells := positions,
               eliminations := colElims }
      else none

/-- The claiming check of findLockedCandidates for one row and one digit. -/
def lcClaimingRow (g : CellGrid) (r n : Nat) : Option TechniqueResult :=
  let positions := (List.range 9).filterMap fun c =>
    if (g (r, c)).value = none ∧ (g (r, c)).notes.contains n then some ((r, c) : Pos)
    else none
  if positions.length < 2 then none
  else
    let p0 := positions.headD (0, 0)
    let fbr := p0.1 / 3 * 3
    let fbc := p0.2 / 3 * 3
    if positions.all fun p => p.1 / 3 * 3 == fbr && p.2 / 3 * 3 == fbc then
      let eliminations := (List.range 3).flatMap fun i =>
        (List.range 3).filterMap fun j =>
          if fbr + i = r then none
          else if (g (fbr + i, fbc + j)).value = none ∧
              (g (fbr + i, fbc + j)).notes.contains n then
            some (Candidate.mk (fbr + i) (fbc + j) n)
          else none
      if eliminations ≠ [] then
        some { technique := .lockedClaiming, primaryCells := positions,
               eliminations := eliminations }
      else none
    else none

/-- The claiming check of findLockedCandidates for one column and one digit. -/
def lcClaimingCol (g : CellGrid) (c n : Nat) : Option TechniqueResult :=
  let positions := (List.range 9).filterMap fun r =>
    if (g (r, c)).value = none ∧ (g (r, c)).notes.contains n then some ((r, c) : Pos)
    else none
  if positions.length < 2 then none
  else
    let p0 := positions.headD (0, 0)
    let fbr := p0.1 / 3 * 3
    let fbc := p0.2 / 3 * 3
    if positions.all fun p => p.1 / 3 * 3 == fbr && p.2 / 3 * 3 == fbc then
      let eliminations := (List.range 3).flatMap fun i =>
        (List.range 3).filterMap fun j =>
          if fbc + j = c then none
          else if (g (fbr + i, fbc + j)).value = none ∧
              (g (fbr + i, fbc + j)).notes.contains n then
            some (Candidate.mk (fbr + i) (fbc + j) n)
          else none
      if eliminations ≠ [] then
        some { technique := .lockedClaiming, primaryCells := positions,
               eliminations := eliminations }
      else none
    else none

/-- Embedding of findLockedCandidates: pointing over the nine boxes, then
claiming over rows, then claiming over columns. -/
def findLockedCandidates (g : CellGrid) : Option TechniqueResult :=
  orO (((List.range 3).map fun i => 3 * i).findSome? fun br =>
      ((List.range 3).map fun j => 3 * j).findSome? fun bc =>
        digits19.findSome? fun n => lcPointingBoxDigit g br bc n)
    (orO ((List.range 9).findSome? fun r => digits19.findSome? fun n => lcClaimingRow g r n)
      ((List.range 9).findSome? fun c => digits19.findSome? fun n => lcClaimingCol g c n))

/-- The cell filter of findNakedSubsetsInRange: empty with 1..size notes. -/
def nsCandB (g : CellGrid) (size : Nat) (p : Pos) : Bool :=
  (g p).value == none && decide (0 < (g p).notes.length) &&
    decide ((g p).notes.length ≤ size)

/-- Embedding of findNakedSubsetsInRange of Subsets.ts. -/
def findNakedSubsetsInRange (g : CellGrid) (cells : List Pos) (size : Nat)
    (t : TechniqueType) : Option TechniqueResult :=
  let candidatesCells := cells.filter (nsCandB g size)
  if candidatesCells.length < size then none
  else
    (getCombinations candidatesCells size).findSome? fun combo =>
      let unionCandidates := dedupFirst (combo.flatMap fun p => (g p).notes)
      if unionCandidates.length = size then
        let eliminations := cells.flatMap fun q =>
          if q ∈ combo ∨ (g q).value ≠ none then []
          else (g q).notes.filterMap fun n =>
            if n ∈ unionCandidates then some (Candidate.mk q.1 q.2 n) else none
        if eliminations ≠ [] then
          some { technique := t, primaryCells := combo, eliminations := eliminations }
        else none
      else none

/-- Embedding of findHiddenSubsetsInRange of Subsets.ts. -/
def findHiddenSubsetsInRange (g : CellGrid) (cells : List Pos) (size : Nat)
    (t : TechniqueType) : Option TechniqueResult :=
  let possibleCandidates := digits19.filter fun n => !(candCells g cells n).isEmpty
  if possibleCandidates.length < size then none
  else
    (getCombinations possibleCandidates size).findSome? fun candidateCombo =>
      let cellUnion := dedupFirst (candidateCombo.flatMap fun n => candCells g cells n)
      if cellUnion.length = size then
        let eliminations := cellUnion.flatMap fun q =>
          (g q).notes.filterMap fun note =>
            if note ∈ candidateCombo then none else some (Candidate.mk q.1 q.2 note)
        if eliminations ≠ [] then
          some { technique := t, primaryCells := cellUnion, eliminations := eliminations }
        else none
      else none

/-- Embedding of findSubsets: sizes 2, 3, 4; per size rows, then columns,
then boxes; per unit naked before hidden. -/
def findSubsets (g : CellGrid) : Option TechniqueResult :=
  ([(2, TechniqueType.nakedPair, TechniqueType.hiddenPair),
    (3, TechniqueType.nakedTriple, TechniqueType.hiddenTriple),
    (4, TechniqueType.nakedQuad, TechniqueType.hiddenQuad)]
    : List (Nat × TechniqueType × TechniqueType)).findSome? fun sz =>
    orO ((List.range 9).findSome? fun r =>
        orO (findNakedSubsetsInRange g (unitRow r) sz.1 sz.2.1)
          (findHiddenSubsetsInRange g (unitRow r) sz.1 sz.2.2))
      (orO ((List.range 9).findSome? fun c =>
          orO (findNakedSubsetsInRange g (unitCol c) sz.1 sz.2.1)
            (findHiddenSubsetsInRange g (unitCol c) sz.1 sz.2.2))
        ((List.range 3).findSome? fun br => (List.range 3).findSome? fun bc =>
          orO (findNakedSubsetsInRange g (unitBoxStart (br * 3) (bc * 3)) sz.1 sz.2.1)
            (findHiddenSubsetsInRange g (unitBoxStart (br * 3) (bc * 3)) sz.1 sz.2.2)))

/-- Insertion into a sorted list of numbers. -/
def insertSorted (x : Nat) : List Nat → List Nat
  | [] => [x]
  | a :: t => if x ≤ a then x :: a :: t else a :: insertSorted x t

/-- Ascending sort (the source's Array.from(set).sort() on one-digit
indices). -/
def sortNat (l : List Nat) : List Nat := l.foldr insertSorted []

/-- Embedding of findFishInDirection of the fish technique file. -/
def findFishInDirection (g : CellGrid) (size : Nat) (t : TechniqueType)
    (isRowBase : Bool) : Option TechniqueResult :=
  digits19.findSome? fun n =>
    let baseSets := (List.range 9).filterMap fun i =>
      let positions := (List.range 9).filterMap fun j =>
        let r := if isRowBase then i else j
        let c := if isRowBase then j else i
        if (g (r, c)).value == none && (g (r, c)).notes.contains n then some j
        else none
      if 2 ≤ positions.length ∧ positions.length ≤ 9 then
        some ((i, positions) : Nat × List Nat)
      else none
    if baseSets.length < size then none
    else
      (getCombinations baseSets size).findSome? fun baseSetCombo =>
        let coverSetIndices := dedupFirst (baseSetCombo.flatMap fun bs => bs.2)
        if coverSetIndices.length = size then
          let baseIndices := baseSetCombo.map fun bs => bs.1
          let coverIndices := sortNat coverSetIndices
          let eliminations := coverIndices.flatMap fun coverIdx =>
            (List.range 9).filterMap fun otherBaseIdx =>
              if baseIndices.contains otherBaseIdx then none
              else
                let r := if isRowBase then otherBaseIdx else coverIdx
                let c := if isRowBase then coverIdx else otherBaseIdx
                if (g (r, c)).value == none && (g (r, c)).notes.contains n then
                  some (Candidate.mk r c n)
                else none
          if eliminations ≠ [] then
            let primaryCells := baseSetCombo.flatMap fun bs =>
              bs.2.map fun posj =>
                if isRowBase then ((bs.1, posj) : Pos) else ((posj, bs.1) : Pos)
            some { technique := t, primaryCells := primaryCells,
                   eliminations := eliminations }
          else none
        else none

/-- Embedding of findFish: rows as base sets first, then columns. -/
def findFish (g : CellGrid) (size : Nat) (t : TechniqueType) : Option TechniqueResult :=
  orO (findFishInDirection g size t true) (findFishInDirection g size t false)

def findXWing (g : CellGrid) : Option TechniqueResult :=
  findFish g 2 .xWing

def findSwordfish (g : CellGrid) : Option TechniqueResult :=
  findFish g 3 .swordfish

/-- The columns of row r holding candidate n in an empty cell (the cols
array collected by findSkyscraper for each row). -/
def candCols (g : CellGrid) (n r : Nat) : List Nat :=
  (List.range 9).filterMap fun c =>
    if (g (r, c)).value == none && (g (r, c)).notes.contains n then some c else none

/-- Embedding of findSkyscraper of Wings.ts.  The source only examines rows
as base lines; the columns-as-base direction is left as a TODO comment and is
not implemented. -/
def findSkyscraper (g : CellGrid) : Option TechniqueResult :=
  digits19.findSome? fun n =>
    let potentialRows := (List.range 9).filterMap fun r =>
      let cols := candCols g n r
      if cols.length = 2 then some ((r, cols) : Nat × List Nat) else none
    if 2 ≤ potentialRows.length then
      (getCombinations potentialRows 2).findSome? fun combo =>
        match combo with
        | [row1, row2] =>
          let unionCols := dedupFirst (row1.2 ++ row2.2)
          if unionCols.length = 3 then
            let c10 := row1.2.headD 0
            let c11 := row1.2.getD 1 0
            match
              (if row2.2.contains c10 then some c10
               else if row2.2.contains c11 then some c11 else none : Option Nat) with
            | none => none
            | some sharedCol =>
              let tip1Col := (row1.2.filter fun c => !(c == sharedCol)).headD 0
              let tip2Col := (row2.2.filter fun c => !(c == sharedCol)).headD 0
              let eliminations := allPos.filterMap fun p =>
                if (g p).value == none && (g p).notes.contains n &&
                    isPeer p.1 p.2 row1.1 tip1Col && isPeer p.1 p.2 row2.1 tip2Col then
                  some (Candidate.mk p.1 p.2 n)
                else none
              if eliminations ≠ [] then
                some { technique := .skyscraper,
                       primaryCells := [(row1.1, sharedCol), (row2.1, sharedCol),
                         (row1.1, tip1Col), (row2.1, tip2Col)],
                       eliminations := eliminations }
              else none
          else none
        | _ => none
    else none

/-- Embedding of findXYWing of Wings.ts. -/
def findXYWing (g : CellGrid) : Option TechniqueResult :=
  let bivalueCells := allPos.filter fun p =>
    (g p).value == none && (g p).notes.length == 2
  if bivalueCells.length < 3 then none
  else
    bivalueCells.findSome? fun pivot =>
      let pincers := bivalueCells.filter fun p =>
        !(p == pivot) && isPeer p.1 p.2 pivot.1 pivot.2
      if pincers.length < 2 then none
      else
        let a := (g pivot).notes.headD 0
        let b := (g pivot).notes.getD 1 0
        (pincers.filter fun p => (g p).notes.contains a).findSome? fun pA =>
          (pincers.filter fun p => (g p).notes.contains b).findSome? fun pB =>
            if pA == pB then none
            else
              match (g pA).notes.find? fun n => !(n == a) with
              | none => none
              | some zA =>
                match (g pB).notes.find? fun n => !(n == b) with
                | none => none
                | some zB =>
                  if zA == zB then
                    let eliminations := allPos.filterMap fun q =>
                      if (g q).value == none && (g q).notes.contains zA then
                        if q = pA ∨ q = pB ∨ q = pivot then none
                        else if isPeer q.1 q.2 pA.1 pA.2 && isPeer q.1 q.2 pB.1 pB.2 then
                          some (Candidate.mk q.1 q.2 zA)
                        else none
                      else none
                    if eliminations ≠ [] then
                      some { technique := .xyWing, primaryCells := [pivot, pA, pB],
                             eliminations := eliminations }
                    else none
                  else none

/-- Embedding of findXYZWing of Wings.ts. -/
def findXYZWing (g : CellGrid) : Option TechniqueResult :=
  let trivalueCells := allPos.filter fun p =>
    (g p).value == none && (g p).notes.length == 3
  let bivalueCells := allPos.filter fun p =>
    (g p).value == none && (g p).notes.length == 2
  trivalueCells.findSome? fun pivot =>
    (g pivot).notes.findSome? fun z =>
      let others := (g pivot).notes.filter fun n => !(n == z)
      let x := others.headD 0
      let y := others.getD 1 0
      ((bivalueCells.filter fun p =>
          (g p).notes.contains x && (g p).notes.contains z &&
            isPeer p.1 p.2 pivot.1 pivot.2).findSome? fun pXZ =>
        (bivalueCells.filter fun p =>
            (g p).notes.contains y && (g p).notes.contains z &&
              isPeer p.1 p.2 pivot.1 pivot.2).findSome? fun pYZ =>
          if pXZ == pYZ then none
          else
            let eliminations := allPos.filterMap fun q =>
              if (g q).value == none && (g q).notes.contains z then
                if q = pXZ ∨ q = pYZ ∨ q = pivot then none
                else if isPeer q.1 q.2 pivot.1 pivot.2 && isPeer q.1 q.2 pXZ.1 pXZ.2 &&
                    isPeer q.1 q.2 pYZ.1 pYZ.2 then
                  some (Candidate.mk q.1 q.2 z)
                else none
              else none
            if eliminations ≠ [] then
              some { technique := .xyzWing, primaryCells := [pivot, pXZ, pYZ],
                     eliminations := eliminations }
            else none)

/-- Embedding of findBUGPlus1.  The source's single pass over the empty
cells returns null as soon as it sees a cell with a notes count other than 2
or 3 or a second 3-count cell; as a function of the grid this equals the
check below: every empty cell has 2 or 3 notes and exactly one has 3. -/
def findBUGPlus1 (g : CellGrid) : Option TechniqueResult :=
  let emptyCells := allPos.filter fun p => (g p).value == none
  if emptyCells.all fun p => (g p).notes.length == 2 || (g p).notes.length == 3 then
    match emptyCells.filter fun p => (g p).notes.length == 3 with
    | [t] =>
      let bsr := t.1 / 3 * 3
      let bsc := t.2 / 3 * 3
      (g t).notes.findSome? fun n =>
        let countRow := ((List.range 9).filter fun c =>
          (g (t.1, c)).value == none && (g (t.1, c)).notes.contains n).length
        let countCol := ((List.range 9).filter fun r =>
          (g (r, t.2)).value == none && (g (r, t.2)).notes.contains n).length
        let countBox := ((List.range 3).flatMap fun i => (List.range 3).filter fun j =>
          (g (bsr + i, bsc + j)).value == none &&
            (g (bsr + i, bsc + j)).notes.contains n).length
        if countRow = 3 ∧ countCol = 3 ∧ countBox = 3 then
          some { technique := .bugPlusOne, primaryCells := [t], eliminations := [],
                 placement := some ⟨t.1, t.2, n⟩ }
        else none
    | _ => none
  else none

/-- The technique priority chain of SudokuSolver.findNextTechnique, after
the updateCandidates call. -/
def findTech (g : CellGrid) : Option TechniqueResult :=
  orO (findNakedSingle g) (orO (findHiddenSingle g) (orO (findLockedCandidates g)
    (orO (findSubsets g) (orO (findXWing g) (orO (findSkyscraper g)
      (orO (findSwordfish g) (orO (findXYWing g)
        (orO (findXYZWing g) (findBUGPlus1 g)))))))))

/-- Embedding of SudokuSolver.findNextTechnique: the source first mutates the
grid through updateCandidates, then runs the chain; the embedding returns the
updated grid together with the found result. -/
def findNextTechnique (g : CellGrid) : CellGrid × Option TechniqueResult :=
  (updateCandidates g, findTech (updateCandidates g))

/-- One elimination of SudokuSolver.applyEliminations: remove the first
occurrence of the value from the cell's notes (indexOf + splice). -/
def elimNote (g : CellGrid) (e : Candidate) : CellGrid :=
  setCell g (e.row, e.col)
    { g (e.row, e.col) with notes := (g (e.row, e.col)).notes.erase e.value }

/-- Embedding of SudokuSolver.applyEliminations. -/
def applyEliminations (g : CellGrid) : List Candidate → CellGrid
  | [] => g
  | e :: es => applyEliminations (elimNote g e) es

/-- Setting a cell's value (the solve loop's `grid[row][col].value = value`). -/
def placeValue (g : CellGrid) (p : Pos) (v : Nat) : CellGrid :=
  setCell g p { g p with value := some v }

/-
  Embedding of SudokuSolver.solve.  One iteration of the while(changed) loop
  refreshes the candidates, runs the technique chain, applies a placement or
  the eliminations, and sets changed accordingly; the loop exits when no
  technique applies, when the found placement targets a filled cell, or when
  an elimination-only result carries no eliminations.  The loop need not
  terminate (an elimination-only technique reports progress although the next
  updateCandidates discards its eliminations), so it is modelled with a fuel
  parameter: solveLoop returns none when the loop is still running after fuel
  iterations and some (isSolved g, g) at a real exit.
-/
def solveLoop : Nat → CellGrid → Option (Bool × CellGrid)
  | 0, _ => none
  | fuel + 1, g =>
    match findTech (updateCandidates g) with
    | none => some (isSolved (updateCandidates g), updateCandidates g)
    | some res =>
      match res.placement with
      | some mv =>
        if ((updateCandidates g) (mv.row, mv.col)).value = none then
          solveLoop fuel (placeValue (updateCandidates g) (mv.row, mv.col) mv.value)
        else some (isSolved (updateCandidates g), updateCandidates g)
      | none =>
        if res.eliminations ≠ [] then
          solveLoop fuel (applyEliminations (updateCandidates g) res.eliminations)
        else some (isSolved (updateCandidates g), updateCandidates g)

/-- Embedding of GameStore.getHint's grid scan (the isGameOver/isGameWon
early return guards game state, not the grid, and is outside the embedding):
return the first cell in row-major order that is empty and not given,
together with that cell's stored solutionValue. -/
def getHint (g : CellGrid) : Option Candidate :=
  allPos.findSome? fun p =>
    if (g p).value = none ∧ (g p).isGiven = false then
      some (Candidate.mk p.1 p.2 (g p).solutionValue)
    else none

theorem isSolved_spec {g : CellGrid} :
    isSolved g = true ↔ ∀ p ∈ allPos, (g p).value ≠ none := by
  simp [isSolved, List.all_eq_true]

theorem elimNote_fields (g : CellGrid) (e : Candidate) (p : Pos) :
    ((elimNote g e) p).value = (g p).value ∧
    ((elimNote g e) p).isGiven = (g p).isGiven ∧
    ((elimNote g e) p).solutionValue = (g p).solutionValue := by
  by_cases h : p = (e.row, e.col) <;> simp [elimNote, setCell, h]

theorem applyEliminations_fields :
    ∀ (E : List Candidate) (g : CellGrid) (p : Pos),
      ((applyEliminations g E) p).value = (g p).value ∧
      ((applyEliminations g E) p).isGiven = (g p).isGiven ∧
      ((applyEliminations g E) p).solutionValue = (g p).solutionValue := by
  intro E
  induction E with
  | nil => intro g p; exact ⟨rfl, rfl, rfl⟩
  | cons e es ih =>
    intro g p
    rcases ih (elimNote g e) p with ⟨h1, h2, h3⟩
    rcases elimNote_fields g e p with ⟨k1, k2, k3⟩
    exact ⟨h1.trans k1, h2.trans k2, h3.trans k3⟩

theorem updateCandidates_fields (g : CellGrid) (p : Pos) :
    ((updateCandidates g) p).value = (g p).value ∧
    ((updateCandidates g) p).isGiven = (g p).isGiven ∧
    ((updateCandidates g) p).solutionValue = (g p).solutionValue := by
  by_cases h : (g p).value = none <;> simp [updateCandidates, h]

theorem updateCandidates_congr {a b : CellGrid}
    (h : ∀ p, (a p).value = (b p).value ∧ (a p).isGiven = (b p).isGiven ∧
      (a p).solutionValue = (b p).solutionValue) :
    updateCandidates a = updateCandidates b := by
  have hnum : toNum a = toNum b := by
    funext p
    simp only [toNum, (h p).1]
  funext p
  rcases h p with ⟨h1, h2, h3⟩
  simp only [updateCandidates, hnum, h1, h2, h3]

theorem updateCandidates_idem (g : CellGrid) :
    updateCandidates (updateCandidates g) = updateCandidates g :=
  updateCandidates_congr (updateCandidates_fields g)

/-- C2 (corrected): what holds of the solve loop's exit value.  Whenever the
while(changed) loop of SudokuSolver.solve exits within any number of
iterations, the returned flag is true exactly when every in-range cell of the
final grid holds a non-null value.  The termination half of the claim is
false: the loop need not exit at all — see the counterexample, a grid on
which every iteration applies the same elimination-only technique whose
eliminations the next updateCandidates discards. -/
theorem solve_exit_characterization :
    ∀ (fuel : Nat) (g : CellGrid) (b : Bool) (gf : CellGrid),
      solveLoop fuel g = some (b, gf) →
        (b = true ↔ ∀ p ∈ allPos, (gf p).value ≠ none) := by
  intro fuel
  induction fuel with
  | zero =>
    intro g b gf h
    cases h
  | succ fuel ih =>
    intro g b gf h
    simp only [solveLoop] at h
    cases hres : findTech (updateCandidates g) with
    | none =>
      rw [hres] at h
      have h2 : (isSolved (updateCandidates g), updateCandidates g) = (b, gf) := by
        injection h
      have hb : isSolved (updateCandidates g) = b := congrArg Prod.fst h2
      have hg : updateCandidates g = gf := congrArg Prod.snd h2
      subst hb
      subst hg
      exact isSolved_spec
    | some res =>
      rw [hres] at h
      dsimp only at h
      cases hpl : res.placement with
      | some mv =>
        rw [hpl] at h
        dsimp only at h
        by_cases hcell : ((updateCandidates g) (mv.row, mv.col)).value = none
        · rw [if_pos hcell] at h
          exact ih _ b gf h
        · rw [if_neg hcell] at h
          have h2 : (isSolved (updateCandidates g), updateCandidates g) = (b, gf) := by
            injection h
          have hb : isSolved (updateCandidates g) = b := congrArg Prod.fst h2
          have hg : updateCandidates g = gf := congrArg Prod.snd h2
          subst hb
          subst hg
          exact isSolved_spec
      | none =>
        rw [hpl] at h
        dsimp only at h
        by_cases he : res.eliminations ≠ []
        · rw [if_pos he] at h
          exact ih _ b gf h
        · rw [if_neg he] at h
          have h2 : (isSolved (updateCandidates g), updateCandidates g) = (b, gf) := by
            injection h
          have hb : isSolved (updateCandidates g) = b := congrArg Prod.fst h2
          have hg : updateCandidates g = gf := congrArg Prod.snd h2
          subst hb
          subst hg
          exact isSolved_spec

set_option maxHeartbeats 1000000 in
theorem solve_exit_characterization_witness :
    solveLoop 1 (initialPuzzle SfullF) =
        some (true, updateCandidates (initialPuzzle SfullF)) ∧
      (true = true ↔
        ∀ p ∈ allPos, ((updateCandidates (initialPuzzle SfullF)) p).value ≠ none) := by
  have h1 : findTech (updateCandidates (initialPuzzle SfullF)) = none := by decide
  have h2 : isSolved (updateCandidates (initialPuzzle SfullF)) = true := by decide
  have h : solveLoop 1 (initialPuzzle SfullF) =
      some (true, updateCandidates (initialPuzzle SfullF)) := by
    rw [show (1 : Nat) = 0 + 1 from rfl]
    simp only [solveLoop]
    rw [h1, h2]
  exact ⟨h, solve_exit_characterization 1 (initialPuzzle SfullF) true _ h⟩

/-- A filled cell for the concrete grids below. -/
def vcell (v : Nat) : Cell :=
  { value := some v, notes := [], isGiven := true, solutionValue := 0 }

/-- An untouched empty cell for the concrete grids below. -/
def ecell : Cell :=
  { value := none, notes := [], isGiven := false, solutionValue := 0 }

/-- A grid on which the solve loop spins: box 0 forces candidate 1 of row 0
into its first three cells (Locked Candidates pointing), no single exists,
and the pointing eliminations are discarded by the next updateCandidates. -/
def gSpin : CellGrid := fun p =>
  if p = (1, 0) then vcell 4 else if p = (1, 1) then vcell 5
  else if p = (1, 2) then vcell 6 else if p = (2, 0) then vcell 7
  else if p = (2, 1) then vcell 8 else if p = (2, 2) then vcell 9
  else ecell

/-- The technique result found on gSpin, every iteration anew. -/
def resSpin : TechniqueResult :=
  { technique := .lockedPointing,
    primaryCells := [(0, 0), (0, 1), (0, 2)],
    eliminations := [⟨0, 3, 1⟩, ⟨0, 4, 1⟩, ⟨0, 5, 1⟩, ⟨0, 6, 1⟩, ⟨0, 7, 1⟩, ⟨0, 8, 1⟩] }

set_option maxHeartbeats 8000000 in
/-- C2 counterexample: on gSpin the solve loop never exits — after any number
of iterations it is still running — although a technique applies at every
step: the found result is always the same elimination-only locked-candidates
result, whose effect the next iteration's updateCandidates undoes. -/
theorem solve_nonterminating_counterexample :
    (∀ fuel : Nat, solveLoop fuel gSpin = none) ∧
      findTech (updateCandidates gSpin) = some resSpin ∧
      resSpin.placement = none ∧ resSpin.eliminations ≠ [] := by
  have hres : findTech (updateCandidates gSpin) = some resSpin := by decide
  have key : ∀ fuel : Nat, ∀ g : CellGrid,
      updateCandidates g = updateCandidates gSpin → solveLoop fuel g = none := by
    intro fuel
    induction fuel with
    | zero =>
      intro g _
      rfl
    | succ fuel ih =>
      intro g hg
      simp only [solveLoop, hg, hres, resSpin]
      rw [if_pos (by decide :
        ([⟨0, 3, 1⟩, ⟨0, 4, 1⟩, ⟨0, 5, 1⟩, ⟨0, 6, 1⟩, ⟨0, 7, 1⟩,
          ⟨0, 8, 1⟩] : List Candidate) ≠ [])]
      apply ih
      calc updateCandidates (applyEliminations (updateCandidates gSpin)
            [⟨0, 3, 1⟩, ⟨0, 4, 1⟩, ⟨0, 5, 1⟩, ⟨0, 6, 1⟩, ⟨0, 7, 1⟩, ⟨0, 8, 1⟩])
          = updateCandidates (updateCandidates gSpin) :=
            updateCandidates_congr (applyEliminations_fields _ (updateCandidates gSpin))
        _ = updateCandidates gSpin := updateCandidates_idem gSpin
  exact ⟨fun fuel => key fuel gSpin rfl, hres, rfl, by decide⟩

theorem findSome?_eq_none_iff {α β : Type} {f : α → Option β} :
    ∀ {l : List α}, l.findSome? f = none ↔ ∀ a ∈ l, f a = none := by
  intro l
  induction l with
  | nil => simp
  | cons a t ih =>
    cases hfa : f a <;> simp [List.findSome?_cons, hfa, ih]

theorem findSome?_eq_some_split {α β : Type} {f : α → Option β} {b : β} :
    ∀ {l : List α}, l.findSome? f = some b →
      ∃ l1 a l2, l = l1 ++ a :: l2 ∧ f a = some b ∧ ∀ x ∈ l1, f x = none := by
  intro l
  induction l with
  | nil =>
    intro h
    cases h
  | cons a t ih =>
    intro h
    rw [List.findSome?_cons] at h
    cases hfa : f a with
    | some c =>
      rw [hfa] at h
      have hcb : c = b := by injection h
      subst hcb
      exact ⟨[], a, t, rfl, hfa, by simp⟩
    | none =>
      rw [hfa] at h
      rcases ih h with ⟨l1, x, l2, hsplit, hfx, hnone⟩
      refine ⟨a :: l1, x, l2, by rw [hsplit]; rfl, hfx, ?_⟩
      intro y hy
      rcases List.mem_cons.mp hy with hy | hy
      · rw [hy]
        exact hfa
      · exact hnone y hy

theorem allPos_pairwise_lt :
    allPos.Pairwise (fun a b => 9 * a.1 + a.2 < 9 * b.1 + b.2) := by decide

/-- C3 (corrected): the hint generator does not consult the solver.  getHint
scans the grid in row-major order and returns the first cell that is empty
and not given, paired with that cell's stored solutionValue; no technique
search happens and no grid is touched.  The claimed agreement with
findNextTechnique's placement is false — see the counterexample. -/
theorem getHint_first_empty (g : CellGrid) :
    match getHint g with
    | none => ∀ p ∈ allPos, ¬((g p).value = none ∧ (g p).isGiven = false)
    | some mv =>
        ((mv.row, mv.col) : Pos) ∈ allPos ∧ (g (mv.row, mv.col)).value = none ∧
        (g (mv.row, mv.col)).isGiven = false ∧
        mv.value = (g (mv.row, mv.col)).solutionValue ∧
        ∀ q ∈ allPos, 9 * q.1 + q.2 < 9 * mv.row + mv.col →
          ¬((g q).value = none ∧ (g q).isGiven = false) := by
  cases hh : getHint g with
  | none =>
    intro p hp hcon
    have hz := findSome?_eq_none_iff.mp hh p hp
    rw [if_pos hcon] at hz
    cases hz
  | some mv =>
    rcases findSome?_eq_some_split hh with ⟨l1, a, l2, hsplit, hfa, hnone⟩
    by_cases hca : (g a).value = none ∧ (g a).isGiven = false
    · rw [if_pos hca] at hfa
      have hmv : Candidate.mk a.1 a.2 ((g a).solutionValue) = mv := by injection hfa
      subst hmv
      have hamem : a ∈ allPos := by
        rw [hsplit]
        exact List.mem_append.mpr (Or.inr (List.mem_cons_self a l2))
      refine ⟨hamem, hca.1, hca.2, rfl, ?_⟩
      intro q hq hlt hcon
      have hq' := hq
      rw [hsplit] at hq'
      rcases List.mem_append.mp hq' with hq1 | hq2
      · have hz := hnone q hq1
        rw [if_pos hcon] at hz
        cases hz
      · rcases List.mem_cons.mp hq2 with hqa | hq3
        · subst hqa
          dsimp only at hlt
          omega
        · have hpw := allPos_pairwise_lt
          rw [hsplit] at hpw
          have halt := (List.pairwise_cons.mp (List.pairwise_append.mp hpw).2.1).1 q hq3
          dsimp only at hlt
          omega
    · rw [if_neg hca] at hfa
      cases hfa

/-- The hint scenario grid: row 0 holds 3..9 from column 2 on, a 1 sits at
(5,1), everything else is empty with no solution digits recorded. -/
def gHint : CellGrid := fun p =>
  if p.1 = 0 ∧ 2 ≤ p.2 ∧ p.2 ≤ 8 then vcell (p.2 + 1)
  else if p = (5, 1) then vcell 1
  else ecell

theorem getHint_first_empty_witness :
    getHint gHint = some ⟨0, 0, 0⟩ ∧
      ((0, 0) : Pos) ∈ allPos ∧ (gHint (0, 0)).value = none ∧
      (gHint (0, 0)).isGiven = false ∧
      (0 : Nat) = (gHint (0, 0)).solutionValue := by
  have hh : getHint gHint = some ⟨0, 0, 0⟩ := by decide
  have h := getHint_first_empty gHint
  rw [hh] at h
  exact ⟨hh, h.1, h.2.1, h.2.2.1, h.2.2.2.1⟩

/-- The technique the solver would suggest on gHint: a Naked Single placing
2 at (0,1). -/
def resHintNS : TechniqueResult :=
  { technique := .nakedSingle, primaryCells := [(0, 1)], eliminations := [],
    placement := some ⟨0, 1, 2⟩ }

set_option maxHeartbeats 8000000 in
/-- C3 counterexample: on gHint the technique search (on the refreshed grid,
as findNextTechnique runs it) justifies the placement of 2 at (0,1) — a Naked
Single — while getHint returns the cell (0,0) with its stored solutionValue
0: the hint neither comes from the technique search nor agrees with it. -/
theorem getHint_ignores_solver_counterexample :
    getHint gHint = some ⟨0, 0, 0⟩ ∧
    (findNextTechnique gHint).2 = some resHintNS ∧
    resHintNS.placement = some ⟨0, 1, 2⟩ ∧
    Candidate.mk 0 0 0 ≠ Candidate.mk 0 1 2 := by
  refine ⟨by decide, by decide, rfl, by decide⟩

/-- C5 (confirmed): updateCandidates recomputes candidates from placed
values only.  After the call every filled cell has an empty notes list; an
empty cell's notes hold exactly the digits 1..9 that isSafeInGrid accepts
against the numeric projection of the current values; value, isGiven and
solutionValue are untouched; and the resulting notes depend only on the
values — two grids with the same values get the same notes, whatever notes
they held before. -/
theorem updateCandidates_spec (g : CellGrid) :
    (∀ p, (g p).value ≠ none → ((updateCandidates g) p).notes = []) ∧
    (∀ p, (g p).value = none → ∀ n,
      n ∈ ((updateCandidates g) p).notes ↔
        (1 ≤ n ∧ n ≤ 9 ∧ isSafeInGrid (toNum g) p.1 p.2 n = true)) ∧
    (∀ p, ((updateCandidates g) p).value = (g p).value ∧
      ((updateCandidates g) p).isGiven = (g p).isGiven ∧
      ((updateCandidates g) p).solutionValue = (g p).solutionValue) ∧
    (∀ g' : CellGrid, (∀ p, (g' p).value = (g p).value) →
      ∀ p, ((updateCandidates g') p).notes = ((updateCandidates g) p).notes) := by
  refine ⟨?_, ?_, updateCandidates_fields g, ?_⟩
  · intro p h
    simp [updateCandidates, h]
  · intro p h n
    have hnotes : ((updateCandidates g) p).notes =
        digits19.filter fun m => isSafeInGrid (toNum g) p.1 p.2 m := by
      simp [updateCandidates, h]
    rw [hnotes, List.mem_filter, mem_digits19_iff]
    tauto
  · intro g' hv p
    have hnum : toNum g' = toNum g := funext fun q => by simp [toNum, hv q]
    by_cases h : (g p).value = none
    · have h' : (g' p).value = none := by rw [hv p]; exact h
      simp [updateCandidates, h, h', hnum]
    · have h' : ¬(g' p).value = none := by rw [hv p]; exact h
      simp [updateCandidates, h, h']

theorem updateCandidates_spec_witness :
    ((gSpin (1, 0)).value ≠ none) ∧ ((updateCandidates gSpin) (1, 0)).notes = [] ∧
    ((gSpin (0, 0)).value = none) ∧
      (1 ∈ ((updateCandidates gSpin) (0, 0)).notes ↔
        (1 ≤ 1 ∧ 1 ≤ 9 ∧ isSafeInGrid (toNum gSpin) 0 0 1 = true)) :=
  ⟨by decide, (updateCandidates_spec gSpin).1 (1, 0) (by decide), by decide,
    (updateCandidates_spec gSpin).2.1 (0, 0) (by decide) 1⟩

/-- C8 (corrected): the Naked Pair elimination, pinned to the first scanned
unit.  In row 0 — the first unit the findSubsets scan visits — two cells
with notes exactly [d1, d2] and a third with [d1, d2, d3], the remaining row
cells being filled or note-free, make findSubsets return the Naked Pair
whose eliminations remove d1 and d2 from the third cell.  In the claim's
generality ("some row") the statement is false: an earlier unit's subset
preempts the scan — see the counterexample. -/
theorem findSubsets_naked_pair (g : CellGrid) (d1 d2 d3 : Nat)
    (hd12 : d1 ≠ d2) (hd13 : d3 ≠ d1) (hd23 : d3 ≠ d2)
    (ha : (g (0, 0)).value = none) (hna : (g (0, 0)).notes = [d1, d2])
    (hb : (g (0, 1)).value = none) (hnb : (g (0, 1)).notes = [d1, d2])
    (ht : (g (0, 2)).value = none) (hnt : (g (0, 2)).notes = [d1, d2, d3])
    (hother : ∀ c, 3 ≤ c → c < 9 → (g (0, c)).value ≠ none ∨ (g (0, c)).notes = []) :
    findSubsets g = some
      { technique := TechniqueType.nakedPair,
        primaryCells := [(0, 0), (0, 1)],
        eliminations := [Candidate.mk 0 2 d1, Candidate.mk 0 2 d2] } := by
  have hc0 : nsCandB g 2 (0, 0) = true := by
    unfold nsCandB
    rw [ha, hna]
    rfl
  have hc1 : nsCandB g 2 (0, 1) = true := by
    unfold nsCandB
    rw [hb, hnb]
    rfl
  have hc2 : ¬(nsCandB g 2 (0, 2) = true) := by
    unfold nsCandB
    rw [ht, hnt]
    simp
  have hcother : ∀ c, 3 ≤ c → c < 9 → ¬(nsCandB g 2 (0, c) = true) := by
    intro c h3 h9
    unfold nsCandB
    rcases hother c h3 h9 with h | h
    · cases hv : (g (0, c)).value with
      | none => exact absurd hv h
      | some v => simp
    · rw [h]
      simp
  have hfilter : List.filter (nsCandB g 2)
      ([(0, 0), (0, 1), (0, 2), (0, 3), (0, 4), (0, 5), (0, 6), (0, 7), (0, 8)] :
        List Pos) = [(0, 0), (0, 1)] := by
    rw [List.filter_cons_of_pos hc0, List.filter_cons_of_pos hc1,
      List.filter_cons_of_neg hc2,
      List.filter_cons_of_neg (hcother 3 (by omega) (by omega)),
      List.filter_cons_of_neg (hcother 4 (by omega) (by omega)),
      List.filter_cons_of_neg (hcother 5 (by omega) (by omega)),
      List.filter_cons_of_neg (hcother 6 (by omega) (by omega)),
      List.filter_cons_of_neg (hcother 7 (by omega) (by omega)),
      List.filter_cons_of_neg (hcother 8 (by omega) (by omega)),
      List.filter_nil]
  have hdedup : dedupFirst [d1, d2, d1, d2] = [d1, d2] := by
    simp [dedupFirst, hd12, Ne.symm hd12]
  have hflt : ([d1, d2, d3].filterMap fun n =>
      if n ∈ [d1, d2] then some (Candidate.mk 0 2 n) else none) =
      [Candidate.mk 0 2 d1, Candidate.mk 0 2 d2] := by
    simp [List.filterMap_cons, hd13, hd23]
  have hcell0 : ∀ c : Nat, (g (0, c)).value ≠ none ∨ (g (0, c)).notes = [] →
      (if ((0, c) : Pos) ∈ ([(0, 0), (0, 1)] : List Pos) ∨ (g ((0, c) : Pos)).value ≠ none
        then ([] : List Candidate)
        else (g ((0, c) : Pos)).notes.filterMap fun n =>
          if n ∈ [d1, d2] then some (Candidate.mk 0 c n) else none) = [] := by
    intro c hc
    rcases hc with h | h
    · rw [if_pos (Or.inr h)]
    · by_cases hin : ((0, c) : Pos) ∈ ([(0, 0), (0, 1)] : List Pos) ∨
          (g ((0, c) : Pos)).value ≠ none
      · rw [if_pos hin]
      · rw [if_neg hin, h, List.filterMap_nil]
  have hnr0 : findNakedSubsetsInRange g (unitRow 0) 2 TechniqueType.nakedPair =
      some
        { technique := TechniqueType.nakedPair, primaryCells := [(0, 0), (0, 1)],
          eliminations := [Candidate.mk 0 2 d1, Candidate.mk 0 2 d2] } := by
    have hur : unitRow 0 =
        ([(0, 0), (0, 1), (0, 2), (0, 3), (0, 4), (0, 5), (0, 6), (0, 7), (0, 8)] :
          List Pos) := by decide
    simp only [findNakedSubsetsInRange]
    rw [hur, hfilter]
    rw [if_neg (by decide : ¬(([(0, 0), (0, 1)] : List Pos).length < 2))]
    rw [show getCombinations ([(0, 0), (0, 1)] : List Pos) 2 =
      [[(0, 0), (0, 1)]] from by decide]
    rw [List.findSome?_cons]
    rw [show ([(0, 0), (0, 1)] : List Pos).flatMap (fun p => (g p).notes) =
      [d1, d2, d1, d2] from by
        simp only [List.flatMap_cons, List.flatMap_nil, List.append_nil]
        rw [hna, hnb]
        rfl]
    rw [hdedup]
    rw [if_pos (show ([d1, d2] : List Nat).length = 2 from rfl)]
    simp only [List.flatMap_cons, List.flatMap_nil]
    rw [if_pos (show ((0, 0) : Pos) ∈ ([(0, 0), (0, 1)] : List Pos) ∨
        (g ((0, 0) : Pos)).value ≠ none from Or.inl (by decide))]
    rw [if_pos (show ((0, 1) : Pos) ∈ ([(0, 0), (0, 1)] : List Pos) ∨
        (g ((0, 1) : Pos)).value ≠ none from Or.inl (by decide))]
    rw [if_neg (show ¬(((0, 2) : Pos) ∈ ([(0, 0), (0, 1)] : List Pos) ∨
        (g ((0, 2) : Pos)).value ≠ none) from by
      intro hcon
      rcases hcon with h | h
      · exact absurd h (by decide)
      · exact h ht)]
    rw [hnt, hflt]
    rw [hcell0 3 (hother 3 (by omega) (by omega)),
      hcell0 4 (hother 4 (by omega) (by omega)),
      hcell0 5 (hother 5 (by omega) (by omega)),
      hcell0 6 (hother 6 (by omega) (by omega)),
      hcell0 7 (hother 7 (by omega) (by omega)),
      hcell0 8 (hother 8 (by omega) (by omega))]
    simp only [List.nil_append, List.append_nil]
    rw [if_pos (show ([Candidate.mk 0 2 d1, Candidate.mk 0 2 d2] : List Candidate) ≠ []
      from by simp)]
  have hsz1 : ((List.range 9).findSome? fun r =>
      orO (findNakedSubsetsInRange g (unitRow r) 2 TechniqueType.nakedPair)
        (findHiddenSubsetsInRange g (unitRow r) 2 TechniqueType.hiddenPair)) =
      some
        { technique := TechniqueType.nakedPair, primaryCells := [(0, 0), (0, 1)],
          eliminations := [Candidate.mk 0 2 d1, Candidate.mk 0 2 d2] } := by
    rw [show List.range 9 = 0 :: [1, 2, 3, 4, 5, 6, 7, 8] from by decide]
    rw [List.findSome?_cons]
    rw [hnr0]
    rfl
  simp only [findSubsets]
  rw [List.findSome?_cons]
  rw [hsz1]
  rfl

/-- The naked-pair scenario grid in row 0, with digits 4, 5 and third-cell
digit 6. -/
def gC8w : CellGrid := fun p =>
  if p = (0, 0) ∨ p = (0, 1) then
    { value := none, notes := [4, 5], isGiven := false, solutionValue := 0 }
  else if p = (0, 2) then
    { value := none, notes := [4, 5, 6], isGiven := false, solutionValue := 0 }
  else ecell

theorem findSubsets_naked_pair_witness :
    ((gC8w (0, 0)).value = none ∧ (gC8w (0, 0)).notes = [4, 5] ∧
      (gC8w (0, 2)).notes = [4, 5, 6]) ∧
    findSubsets gC8w = some
      { technique := TechniqueType.nakedPair,
        primaryCells := [(0, 0), (0, 1)],
        eliminations := [Candidate.mk 0 2 4, Candidate.mk 0 2 5] } :=
  ⟨⟨by decide, by decide, by decide⟩,
    findSubsets_naked_pair gC8w 4 5 6 (by decide) (by decide) (by decide) (by decide)
      (by decide) (by decide) (by decide) (by decide) (by decide) (by decide)⟩

/-- A grid holding the claim's scenario in row 5 and a competing naked pair
in row 0. -/
def gC8x : CellGrid := fun p =>
  if p = (0, 0) ∨ p = (0, 1) then
    { value := none, notes := [4, 5], isGiven := false, solutionValue := 0 }
  else if p = (0, 2) then
    { value := none, notes := [4, 5, 6], isGiven := false, solutionValue := 0 }
  else if p = (5, 0) ∨ p = (5, 1) then
    { value := none, notes := [1, 2], isGiven := false, solutionValue := 0 }
  else if p = (5, 2) then
    { value := none, notes := [1, 2, 3], isGiven := false, solutionValue := 0 }
  else ecell

/-- The result findSubsets returns on gC8x: row 0's pair, found first. -/
def resC8x : TechniqueResult :=
  { technique := .nakedPair, primaryCells := [(0, 0), (0, 1)],
    eliminations := [⟨0, 2, 4⟩, ⟨0, 2, 5⟩] }

set_option maxHeartbeats 2000000 in
/-- C8 counterexample: gC8x holds the claim's scenario in row 5 (two cells
with notes {1,2}, a third with {1,2,3}), yet the result findSubsets returns
is row 0's naked pair, whose eliminations do not touch the row-5 cell: the
claim's for-every-grid statement fails. -/
theorem findSubsets_naked_pair_counterexample :
    ((gC8x (5, 0)).value = none ∧ (gC8x (5, 0)).notes = [1, 2]) ∧
    ((gC8x (5, 1)).value = none ∧ (gC8x (5, 1)).notes = [1, 2]) ∧
    ((gC8x (5, 2)).value = none ∧ (gC8x (5, 2)).notes = [1, 2, 3]) ∧
    findSubsets gC8x = some resC8x ∧
    Candidate.mk 5 2 1 ∉ resC8x.eliminations ∧
    Candidate.mk 5 2 2 ∉ resC8x.eliminations := by decide

theorem contains_iff_mem {α : Type} [BEq α] [LawfulBEq α] {a : α} :
    ∀ {l : List α}, l.contains a = true ↔ a ∈ l := by
  intro l
  induction l with
  | nil => simp
  | cons x t ih => simp

theorem mem_dedupFirst {α : Type} [BEq α] [LawfulBEq α] {x : α} :
    ∀ {l : List α}, x ∈ dedupFirst l ↔ x ∈ l := by
  intro l
  induction l with
  | nil => simp [dedupFirst]
  | cons a t ih =>
    rw [dedupFirst]
    simp only [List.mem_cons, List.mem_filter, ih, Bool.not_eq_true', beq_eq_false_iff_ne,
      ne_eq]
    constructor
    · rintro (h | ⟨h1, _⟩)
      · exact Or.inl h
      · exact Or.inr h1
    · rintro (h | h)
      · exact Or.inl h
      · by_cases hxa : x = a
        · exact Or.inl hxa
        · exact Or.inr ⟨h, hxa⟩

theorem nodup_dedupFirst {α : Type} [BEq α] [LawfulBEq α] :
    ∀ l : List α, (dedupFirst l).Nodup := by
  intro l
  induction l with
  | nil => simp [dedupFirst]
  | cons a t ih =>
    rw [dedupFirst]
    refine List.nodup_cons.mpr ⟨?_, List.Nodup.filter _ ih⟩
    intro hmem
    rw [List.mem_filter] at hmem
    simp at hmem

theorem length_dedupFirst_three {a b c : Nat} {l : List Nat}
    (hmem : ∀ x, x ∈ l ↔ (x = a ∨ x = b ∨ x = c))
    (hab : a ≠ b) (hac : a ≠ c) (hbc : b ≠ c) :
    (dedupFirst l).length = 3 := by
  have hperm : (dedupFirst l).Perm [a, b, c] := by
    apply (List.perm_ext_iff_of_nodup (nodup_dedupFirst l) (by simp [hab, hac, hbc])).mpr
    intro x
    rw [mem_dedupFirst, hmem x]
    simp
  simpa using hperm.length_eq

theorem filterMap_guard_eq_filter {α : Type} (f : α → Bool) :
    ∀ l : List α, (l.filterMap fun c => if f c then some c else none) = l.filter f := by
  intro l
  induction l with
  | nil => rfl
  | cons a t ih =>
    cases hfa : f a
    · rw [List.filterMap_cons, List.filter_cons_of_neg (by simp [hfa])]
      simp [hfa, ih]
    · rw [List.filterMap_cons, List.filter_cons_of_pos hfa]
      simp [hfa, ih]

/-- The filter of the 0..8 range by a predicate holding exactly at two
distinct indices is the ascending pair. -/
theorem filter_range_pair (fB : Nat → Bool) {a b : Nat} (ha : a < 9) (hb : b < 9)
    (hab : a ≠ b) (h : ∀ c, c < 9 → (fB c = true ↔ (c = a ∨ c = b))) :
    (List.range 9).filter fB = if a < b then [a, b] else [b, a] := by
  have hnd1 : ((List.range 9).filter fB).Nodup := (List.nodup_range 9).filter _
  have hsort : ((List.range 9).filter fB).Sorted (· ≤ ·) :=
    ((List.pairwise_lt_range 9).filter fB).imp le_of_lt
  have hperm : ((List.range 9).filter fB).Perm (if a < b then [a, b] else [b, a]) := by
    apply (List.perm_ext_iff_of_nodup hnd1 ?_).mpr
    · intro x
      simp only [List.mem_filter, List.mem_range]
      constructor
      · rintro ⟨hx9, hfx⟩
        have hx := (h x hx9).mp hfx
        split <;> simp <;> tauto
      · intro hx
        have hx' : x = a ∨ x = b := by
          revert hx
          split <;> simp <;> tauto
        have hx9 : x < 9 := by rcases hx' with rfl | rfl <;> assumption
        exact ⟨hx9, (h x hx9).mpr hx'⟩
    · split <;> simp [hab, Ne.symm hab]
  have hsort2 : (if a < b then [a, b] else [b, a]).Sorted (· ≤ ·) := by
    split <;> simp <;> omega
  exact List.eq_of_perm_of_sorted hperm hsort hsort2

theorem pair_mem_getCombinations_two {α : Type} {a b : α} :
    ∀ {l : List α}, [a, b].Sublist l → [a, b] ∈ getCombinations l 2 := by
  intro l
  induction l with
  | nil =>
    intro h
    cases h
  | cons x rest ih =>
    intro h
    have hgc : getCombinations (x :: rest) 2 =
        ((getCombinations rest 1).map fun combo => x :: combo) ++
          getCombinations rest 2 := rfl
    rw [hgc, List.mem_append]
    cases h with
    | cons _ h' =>
      exact Or.inr (ih h')
    | cons₂ _ h' =>
      refine Or.inl ?_
      rw [List.mem_map]
      refine ⟨[b], ?_, rfl⟩
      have h1 : getCombinations rest 1 = rest.map fun item => [item] := by
        rw [getCombinations.eq_def]
        rfl
      rw [h1, List.mem_map]
      exact ⟨b, h'.subset (List.mem_cons_self b []), rfl⟩

/-- C6 (corrected): the Skyscraper guarantee holds with rows as the base
lines.  When rows r1 < r2 hold candidate n in exactly the columns {cS, c1}
and {cS, c2} respectively (cS shared, tips c1 and c2 distinct), and some
empty cell holding candidate n is a peer of both tips, findSkyscraper finds
a pattern.  The claim's column version is false: the source only scans rows
as base lines and leaves the column direction as a TODO — see the
counterexample. -/
theorem findSkyscraper_rows_base (g : CellGrid) (n r1 r2 cS c1 c2 : Nat)
    (hn : 1 ≤ n ∧ n ≤ 9) (hr12 : r1 < r2) (hr2 : r2 < 9)
    (hcS : cS < 9) (hc1 : c1 < 9) (hc2 : c2 < 9)
    (hne1 : cS ≠ c1) (hne2 : cS ≠ c2) (hne3 : c1 ≠ c2)
    (hrow1 : ∀ c, c < 9 →
      (((g (r1, c)).value = none ∧ n ∈ (g (r1, c)).notes) ↔ (c = cS ∨ c = c1)))
    (hrow2 : ∀ c, c < 9 →
      (((g (r2, c)).value = none ∧ n ∈ (g (r2, c)).notes) ↔ (c = cS ∨ c = c2)))
    (q : Pos) (hq : q ∈ allPos) (hqv : (g q).value = none) (hqn : n ∈ (g q).notes)
    (hp1 : isPeer q.1 q.2 r1 c1 = true) (hp2 : isPeer q.1 q.2 r2 c2 = true) :
    findSkyscraper g ≠ none := by
  have hr1 : r1 < 9 := by omega
  -- the two base rows' candidate-column lists
  have hcc1 : candCols g n r1 = if cS < c1 then [cS, c1] else [c1, cS] := by
    rw [candCols, filterMap_guard_eq_filter]
    exact filter_range_pair _ hcS hc1 hne1 (by
      intro c hc
      rw [← hrow1 c hc]
      simp [contains_iff_mem])
  have hcc2 : candCols g n r2 = if cS < c2 then [cS, c2] else [c2, cS] := by
    rw [candCols, filterMap_guard_eq_filter]
    exact filter_range_pair _ hcS hc2 hne2 (by
      intro c hc
      rw [← hrow2 c hc]
      simp [contains_iff_mem])
  have hm1 : ∀ x, x ∈ candCols g n r1 ↔ (x = cS ∨ x = c1) := by
    intro x
    rw [hcc1]
    split <;> simp [or_comm]
  have hm2 : ∀ x, x ∈ candCols g n r2 ↔ (x = cS ∨ x = c2) := by
    intro x
    rw [hcc2]
    split <;> simp [or_comm]
  have hlen1 : (candCols g n r1).length = 2 := by
    rw [hcc1]
    split <;> rfl
  have hlen2 : (candCols g n r2).length = 2 := by
    rw [hcc2]
    split <;> rfl
  -- the union of the two column lists has three distinct entries
  have hdu : (dedupFirst (candCols g n r1 ++ candCols g n r2)).length = 3 := by
    apply length_dedupFirst_three (a := cS) (b := c1) (c := c2)
      _ hne1 hne2 hne3
    intro x
    rw [List.mem_append, hm1, hm2]
    tauto
  intro hnone
  have hdig := findSome?_eq_none_iff.mp hnone n (mem_digits19_iff.mpr hn)
  dsimp only at hdig
  -- the two rows survive into potentialRows
  have hfr : [r1, r2].filterMap (fun r =>
      if (candCols g n r).length = 2 then some ((r, candCols g n r) : Nat × List Nat)
      else none) = [(r1, candCols g n r1), (r2, candCols g n r2)] := by
    simp [List.filterMap_cons, hlen1, hlen2]
  have hsubr : List.Sublist [r1, r2] (List.range 9) := by
    have hfp := filter_range_pair (fun x => x == r1 || x == r2) hr1 hr2
      (by omega) (by intro c hc; simp)
    rw [if_pos hr12] at hfp
    rw [← hfp]
    exact List.filter_sublist _
  have hsub2 : List.Sublist
      [((r1, candCols g n r1) : Nat × List Nat), (r2, candCols g n r2)]
      ((List.range 9).filterMap (fun r =>
        if (candCols g n r).length = 2 then some ((r, candCols g n r) : Nat × List Nat)
        else none)) := by
    have := List.Sublist.filterMap (fun r =>
      if (candCols g n r).length = 2 then some ((r, candCols g n r) : Nat × List Nat)
      else none) hsubr
    rw [hfr] at this
    exact this
  have hlenPR : 2 ≤ ((List.range 9).filterMap (fun r =>
      if (candCols g n r).length = 2 then some ((r, candCols g n r) : Nat × List Nat)
      else none)).length := by
    have := hsub2.length_le
    simpa using this
  rw [if_pos hlenPR] at hdig
  have hcombo := pair_mem_getCombinations_two hsub2
  have happ := findSome?_eq_none_iff.mp hdig _ hcombo
  dsimp only at happ
  rw [if_pos hdu] at happ
  -- the shared column is found and the tips are c1 and c2
  have htip1 : ((candCols g n r1).filter fun c => !(c == cS)).headD 0 = c1 := by
    rw [hcc1]
    split <;> simp [hne1, Ne.symm hne1]
  have htip2 : ((candCols g n r2).filter fun c => !(c == cS)).headD 0 = c2 := by
    rw [hcc2]
    split <;> simp [hne2, Ne.symm hne2]
  have hshared : (if (candCols g n r2).contains ((candCols g n r1).headD 0) then
      some ((candCols g n r1).headD 0)
      else if (candCols g n r2).contains ((candCols g n r1).getD 1 0) then
        some ((candCols g n r1).getD 1 0)
      else none) = some cS := by
    by_cases hlt : cS < c1
    · have hh : (candCols g n r1).headD 0 = cS := by
        rw [hcc1, if_pos hlt]
        rfl
      rw [hh, if_pos (contains_iff_mem.mpr ((hm2 cS).mpr (Or.inl rfl)))]
    · have hh : (candCols g n r1).headD 0 = c1 := by
        rw [hcc1, if_neg hlt]
        rfl
      have hh2 : (candCols g n r1).getD 1 0 = cS := by
        rw [hcc1, if_neg hlt]
        rfl
      have hnc : ¬((candCols g n r2).contains c1 = true) := by
        rw [contains_iff_mem, hm2]
        push_neg
        exact ⟨Ne.symm hne1, hne3⟩
      rw [hh, hh2, if_neg hnc,
        if_pos (contains_iff_mem.mpr ((hm2 cS).mpr (Or.inl rfl)))]
  rw [hshared] at happ
  dsimp only at happ
  rw [htip1, htip2] at happ
  -- the elimination list is nonempty: q contributes
  have hqel : Candidate.mk q.1 q.2 n ∈ allPos.filterMap (fun p =>
      if (g p).value == none && (g p).notes.contains n &&
          isPeer p.1 p.2 r1 c1 && isPeer p.1 p.2 r2 c2 then
        some (Candidate.mk p.1 p.2 n)
      else none) := by
    rw [List.mem_filterMap]
    refine ⟨q, hq, ?_⟩
    rw [if_pos ?_]
    simp only [Bool.and_eq_true]
    exact ⟨⟨⟨by simp [hqv], contains_iff_mem.mpr hqn⟩, hp1⟩, hp2⟩
  rw [if_pos (List.ne_nil_of_mem hqel)] at happ
  cases happ

/-- A grid with a column-based Skyscraper on candidate 1: columns 0 and 6
hold it in rows {0,3} and {0,5}, row 0 shared, tips (3,0) and (5,6), and the
cell (3,7) sees both tips.  No row has exactly two candidate cells except
row 3, so no row-based pattern fires (a lone potential row is not enough). -/
def gC6 : CellGrid := fun p =>
  if p = (0, 0) ∨ p = (3, 0) ∨ p = (0, 6) ∨ p = (5, 6) ∨ p = (3, 7) ∨ p = (0, 3) then
    { value := none, notes := [1], isGiven := false, solutionValue := 0 }
  else ecell

set_option maxHeartbeats 4000000 in
/-- C6 counterexample: gC6 realizes the claim's column scenario — two
columns with candidate 1 in exactly two empty cells each (rows {0,3} and
{0,5}), exactly one shared row, and the cell (3,7) holds candidate 1 and is
a peer of both tips — yet findSkyscraper returns null: the columns-as-base
direction of the claim is not implemented. -/
theorem findSkyscraper_cols_counterexample :
    findSkyscraper gC6 = none ∧
    ((List.range 9).filterMap fun r =>
      if (gC6 (r, 0)).value == none && (gC6 (r, 0)).notes.contains 1 then some r
      else none) = [0, 3] ∧
    ((List.range 9).filterMap fun r =>
      if (gC6 (r, 6)).value == none && (gC6 (r, 6)).notes.contains 1 then some r
      else none) = [0, 5] ∧
    (gC6 (3, 7)).value = none ∧ (gC6 (3, 7)).notes.contains 1 = true ∧
    isPeer 3 7 3 0 = true ∧ isPeer 3 7 5 6 = true := by decide

/-- The mirrored, row-based scenario: rows 0 and 5 hold candidate 1 in
columns {0,4} and {0,5}, column 0 shared, tips (0,4) and (5,5), and the
cell (1,5) sees both tips. -/
def gC6w : CellGrid := fun p =>
  if p = (0, 0) ∨ p = (0, 4) ∨ p = (5, 0) ∨ p = (5, 5) ∨ p = (1, 5) then
    { value := none, notes := [1], isGiven := false, solutionValue := 0 }
  else ecell

set_option maxHeartbeats 4000000 in
theorem findSkyscraper_rows_base_witness :
    (∀ c, c < 9 →
      (((gC6w (0, c)).value = none ∧ 1 ∈ (gC6w (0, c)).notes) ↔ (c = 0 ∨ c = 4))) ∧
    (∀ c, c < 9 →
      (((gC6w (5, c)).value = none ∧ 1 ∈ (gC6w (5, c)).notes) ↔ (c = 0 ∨ c = 5))) ∧
    findSkyscraper gC6w ≠ none :=
  ⟨by decide, by decide,
    findSkyscraper_rows_base gC6w 1 0 5 0 4 5 (by decide) (by decide) (by decide)
      (by decide) (by decide) (by decide) (by decide) (by decide) (by decide)
      (by decide) (by decide) (1, 5) (by decide) (by decide) (by decide)
      (by decide) (by decide)⟩

end Sudoku
